import Mathlib

/-!
# signedxml helpers: template splicing and key preparation

A shallow embedding of `helpers.go` (package `signedxml`).

`helpers.go` builds on the token tree of `github.com/beevik/etree` and on
`encoding/pem` / `crypto/x509`.  Those packages are not part of this repository,
so the operations of theirs that `helpers.go` calls are modelled here on values:

* a tree is a value, an element inside it is addressed by its position (the
  list of element-child indices leading to it from the root), and in-place
  mutation through an element pointer becomes an update at that position;
* the XML reader behind `Document.ReadFromString` is a parameter `read` of the
  embedded functions, so every general theorem holds for any reader;
* `readXML` is a small concrete reader, used only to run the functions on
  concrete template and payload strings.
-/

namespace SignedXml

/-! ## Token tree (etree data model) -/

/-- Go `error` values are represented by their message. -/
abbrev Error := String

/-- An attribute of an element (etree `Attr`): namespace prefix, key, value. -/
structure Attr where
  Space : String
  Key : String
  Value : String
deriving DecidableEq, Repr

mutual
/-- An XML element (etree `Element`): namespace prefix, tag, attributes, child tokens. -/
inductive Element where
  | mk (Space Tag : String) (Attr : List Attr) (Child : List Token)
/-- A child token of an element or document (etree `Token`). -/
inductive Token where
  | element (e : Element)
  | charData (Data : String) (flags : Nat)
  | comment (Data : String)
  | directive (Data : String)
  | procInst (Target Inst : String)
end

/-- Namespace of an element's tag. -/
def Element.Space : Element → String
  | .mk s _ _ _ => s

/-- Local tag of an element. -/
def Element.Tag : Element → String
  | .mk _ t _ _ => t

/-- Attributes of an element. -/
def Element.Attr : Element → List Attr
  | .mk _ _ a _ => a

/-- Child tokens of an element. -/
def Element.Child : Element → List Token
  | .mk _ _ _ c => c

/-- An element with its child tokens replaced. -/
def Element.withChild : Element → List Token → Element
  | .mk s t a _, c => .mk s t a c

/-- etree `whitespaceFlag`: bit 0 of the character-data flags. -/
def whitespaceFlag : Nat := 1

/-- etree `cdataFlag`: bit 1 of the character-data flags. -/
def cdataFlag : Nat := 2

/-- etree `CharData.IsWhitespace`: the whitespace flag is set. -/
def flagsWhitespace (flags : Nat) : Bool := flags % 2 == 1

/-- etree `CharData.IsCData`: the CDATA flag is set. -/
def flagsCData (flags : Nat) : Bool := (flags / 2) % 2 == 1

/-- The token is character data. -/
def Token.isCharData : Token → Bool
  | .charData _ _ => true
  | _ => false

/-- The child elements among a token list, in order. -/
def childElements : List Token → List Element
  | [] => []
  | .element e :: ts => e :: childElements ts
  | _ :: ts => childElements ts

/-- etree `Element.ChildElements`. -/
def Element.ChildElements (e : Element) : List Element := childElements e.Child

/-- Position of an element below a root: the element-child index taken at each level. -/
abbrev Pos := List Nat

/-- The element at a position below `e` (the pointer `helpers.go` holds to it). -/
def Element.elementAt : Pos → Element → Option Element
  | [], e => some e
  | i :: r, e =>
    match e.ChildElements.get? i with
    | some c => Element.elementAt r c
    | none => none

/-- Apply `f` to the `i`-th element among a token list. -/
def updateNthElement (f : Element → Element) : Nat → List Token → List Token
  | _, [] => []
  | 0, .element e :: ts => .element (f e) :: ts
  | i + 1, .element e :: ts => .element e :: updateNthElement f i ts
  | i, t :: ts => t :: updateNthElement f i ts

/-- Mutate in place the element at a position below the root. -/
def Element.updateAt (f : Element → Element) : Pos → Element → Element
  | [], e => f e
  | i :: r, .mk s t a c => .mk s t a (updateNthElement (Element.updateAt f r) i c)

mutual
/-- Number of elements in the subtree of an element, itself included. -/
def Element.size : Element → Nat
  | .mk _ _ _ c => 1 + sizeTokens c
/-- Number of elements below a token list. -/
def sizeTokens : List Token → Nat
  | [] => 0
  | .element e :: ts => e.size + sizeTokens ts
  | _ :: ts => sizeTokens ts
end

/-! ## Operations of etree used by `helpers.go` -/

/-- etree `Element.AddChild` for a token taken out of another document: the token is
appended after the existing children. -/
def Element.AddChild (t : Token) (e : Element) : Element :=
  e.withChild (e.Child ++ [t])

/-- etree `Element.SetText`: the run of character data right after the opening tag is
replaced by one character-data token holding `text` (flags cleared); an empty `text`
just removes the run. -/
def Element.SetText (text : String) (e : Element) : Element :=
  if text = "" then e.withChild (e.Child.dropWhile Token.isCharData)
  else e.withChild (.charData text 0 :: e.Child.dropWhile Token.isCharData)

/-- The character data at the head of a child list, up to the first other token. -/
def leadingText : List Token → String
  | .charData d _ :: ts => d ++ leadingText ts
  | _ => ""

/-- etree `Element.Text`: the character data immediately following the opening tag. -/
def Element.Text (e : Element) : String := leadingText e.Child

mutual
/-- etree `Element.indent` with the empty indent function (`NoIndent`): whitespace
character data is stripped from the children and child elements are processed recursively. -/
def Element.unindent : Element → Element
  | .mk s t a c => .mk s t a (unindentTokens c)
/-- The part of `Element.indent` working on the child list. -/
def unindentTokens : List Token → List Token
  | [] => []
  | .element e :: ts => .element e.unindent :: unindentTokens ts
  | .charData d f :: ts =>
    if flagsWhitespace f then unindentTokens ts else .charData d f :: unindentTokens ts
  | t :: ts => t :: unindentTokens ts
end

/-- XML whitespace byte, as tested by etree `isWhitespace`. -/
def isWhitespaceChar (c : Char) : Bool :=
  c == ' ' || c == '\t' || c == '\n' || c == '\r'

/-- etree `isWhitespace`: every character is a space, tab, line feed or carriage return. -/
def isWhitespace (s : String) : Bool := s.data.all isWhitespaceChar

/-- etree `isInCharacterRange`: the code point is a legal XML character. -/
def isInCharacterRange (c : Char) : Bool :=
  c.val.toNat == 0x09 || c.val.toNat == 0x0A || c.val.toNat == 0x0D ||
  (0x20 ≤ c.val.toNat && c.val.toNat ≤ 0xD7FF) ||
  (0xE000 ≤ c.val.toNat && c.val.toNat ≤ 0xFFFD) ||
  (0x10000 ≤ c.val.toNat && c.val.toNat ≤ 0x10FFFF)

/-- One step of etree `escapeString` in its normal mode. -/
def escapeChar (c : Char) : List Char :=
  if c == '&' then "&amp;".data
  else if c == '<' then "&lt;".data
  else if c == '>' then "&gt;".data
  else if c == Char.ofNat 39 then "&apos;".data
  else if c == '"' then "&quot;".data
  else if isInCharacterRange c then [c]
  else [Char.ofNat 0xFFFD]

/-- etree `escapeString` in its normal mode (default write settings). -/
def escapeString (s : String) : String := ⟨s.data.flatMap escapeChar⟩

/-- etree `Element.FullTag` / `Attr.FullKey`: the name with its namespace, if any. -/
def fullName (space name : String) : String :=
  if space = "" then name else space ++ ":" ++ name

/-- etree `Attr.WriteTo` with default write settings, preceded by the separating blank. -/
def writeAttrs : List Attr → String
  | [] => ""
  | a :: as => " " ++ fullName a.Space a.Key ++ "=\"" ++ escapeString a.Value ++ "\"" ++ writeAttrs as

mutual
/-- etree `Element.WriteTo` with default write settings. -/
def Element.write : Element → String
  | .mk s t a [] => "<" ++ fullName s t ++ writeAttrs a ++ "/>"
  | .mk s t a (c :: cs) =>
    "<" ++ fullName s t ++ writeAttrs a ++ ">" ++ writeTokens (c :: cs) ++ "</" ++ fullName s t ++ ">"
/-- The tokens of a child list written one after the other (each `Token.WriteTo`). -/
def writeTokens : List Token → String
  | [] => ""
  | .element e :: ts => e.write ++ writeTokens ts
  | .charData d f :: ts =>
    (if flagsCData f then "<![CDATA[" ++ d ++ "]]>" else escapeString d) ++ writeTokens ts
  | .comment d :: ts => "<!--" ++ d ++ "-->" ++ writeTokens ts
  | .directive d :: ts => "<!" ++ d ++ ">" ++ writeTokens ts
  | .procInst target inst :: ts =>
    "<?" ++ target ++ (if inst = "" then "" else " " ++ inst) ++ "?>" ++ writeTokens ts
end

/-- An etree `Document`: the token list of the embedded document element. -/
structure Document where
  Child : List Token

/-- etree `NewDocument`: a document without tokens. -/
def NewDocument : Document := ⟨[]⟩

/-- etree `Element.CreateProcInst` on a document: a processing instruction is appended. -/
def Document.CreateProcInst (target inst : String) (d : Document) : Document :=
  ⟨d.Child ++ [.procInst target inst]⟩

/-- etree `Document.ReadFromString`: the tokens read from `s` are appended to the tokens
the document already holds; the reader itself is the parameter `read`. -/
def Document.ReadFromString (read : String → Except Error (List Token)) (s : String)
    (d : Document) : Document × Option Error :=
  match read s with
  | .ok toks => (⟨d.Child ++ toks⟩, none)
  | .error e => (d, some e)

/-- The first element among a token list. -/
def firstElement : List Token → Option Element
  | [] => none
  | .element e :: _ => some e
  | _ :: ts => firstElement ts

/-- etree `Document.Root`: the first child token that is an element, if any. -/
def Document.Root (d : Document) : Option Element := firstElement d.Child

/-- Mutate in place the element at a position below the document root. -/
def Document.updateAt (f : Element → Element) (p : Pos) (d : Document) : Document :=
  ⟨updateNthElement (Element.updateAt f p) 0 d.Child⟩

/-- etree `Document.Unindent`: `indent` with `NoIndent` on the document element. -/
def Document.Unindent (d : Document) : Document := ⟨unindentTokens d.Child⟩

/-- etree `Document.WriteToString`: the tokens are written to an in-memory buffer,
which cannot fail. -/
def Document.WriteToString (d : Document) : String × Option Error :=
  (writeTokens d.Child, none)

/-! ## Path lookup (etree `FindElement`) -/

/-- The segment selectors of an etree path that `.//Object` compiles to. -/
inductive Selector where
  | selectSelf
  | selectDescendants
  | selectChildrenByTag (space tag : String)

/-- etree `spaceMatch`: an empty namespace in the path matches every namespace. -/
def spaceMatch (a b : String) : Bool := a == "" || a == b

/-- The elements of a child list numbered from `i`, each with its position below `p`. -/
def childrenFrom (p : Pos) : Nat → List Element → List (Pos × Element)
  | _, [] => []
  | i, c :: cs => (p ++ [i], c) :: childrenFrom p (i + 1) cs

/-- The child elements of `e`, each with its position, `e` being at position `p`. -/
def childrenAt (p : Pos) (e : Element) : List (Pos × Element) :=
  childrenFrom p 0 e.ChildElements

/-- etree `selectDescendants.apply`: the element and its descendants, taken off a
first-in first-out queue to which the child elements of each visited element are added.
The fuel bounds the number of visits. -/
def descendantsQueue : Nat → List (Pos × Element) → List (Pos × Element)
  | 0, _ => []
  | _ + 1, [] => []
  | fuel + 1, (p, e) :: queue => (p, e) :: descendantsQueue fuel (queue ++ childrenAt p e)

/-- The candidates one selector produces from one element (`selector.apply`). -/
def Selector.apply : Selector → Pos × Element → List (Pos × Element)
  | .selectSelf, pe => [pe]
  | .selectDescendants, pe => descendantsQueue pe.2.size [pe]
  | .selectChildrenByTag space tag, pe =>
    (childrenAt pe.1 pe.2).filter fun c => spaceMatch space c.2.Space && tag == c.2.Tag

/-- etree `pather.traverse`: the segments are applied one after the other, each to the
candidates of the previous one in the order they were produced. -/
def traverse (segments : List Selector) (e : Element) : List (Pos × Element) :=
  segments.foldl (fun candidates seg => candidates.flatMap seg.apply) [([], e)]

/-- The compiled form of the path `.//Object`. -/
def pathDescendantObject : List Selector :=
  [.selectSelf, .selectDescendants, .selectChildrenByTag "" "Object"]

/-- etree `Element.FindElement(".//Object")`: the first element the traversal yields,
given by its position below `e`; `none` is the nil pointer. -/
def Element.FindElement (e : Element) : Option Pos :=
  ((traverse pathDescendantObject e).head?).map Prod.fst

/-- Document order of positions (pre-order, depth first): an element comes before its
descendants, and the subtree of an earlier sibling before that of a later one. -/
def docBefore : Pos → Pos → Bool
  | [], [] => false
  | [], _ :: _ => true
  | _ :: _, [] => false
  | i :: p, j :: q => decide (i < j) || (i == j && docBefore p q)

/-- Level order of positions (breadth first): a smaller depth comes first, and within one
depth the document order decides. -/
def levelBefore (p q : Pos) : Bool :=
  decide (p.length < q.length) || (p.length == q.length && docBefore p q)

mutual
/-- The first descendant of an element with the given tag that a pre-order depth-first
walk meets, by position: the anchor as the specification describes it. -/
def Element.firstInDocumentOrder (tag : String) : Element → Option Pos
  | .mk _ _ _ c => firstInDocumentOrderFrom tag 0 c
/-- The pre-order walk over a child list whose next element has index `i`. -/
def firstInDocumentOrderFrom (tag : String) : Nat → List Token → Option Pos
  | _, [] => none
  | i, .element e :: ts =>
    if e.Tag = tag then some [i]
    else
      match e.firstInDocumentOrder tag with
      | some p => some (i :: p)
      | none => firstInDocumentOrderFrom tag (i + 1) ts
  | i, _ :: ts => firstInDocumentOrderFrom tag i ts
end

/-- Total number of elements below the entries of a queue. -/
def queueWeight (q : List (Pos × Element)) : Nat := (q.map fun x => x.2.size).sum

/-- The entry `y` lies in the subtree of the entry `x`, at the matching position. -/
def Reach (x y : Pos × Element) : Prop :=
  ∃ r : Pos, y.1 = x.1 ++ r ∧ Element.elementAt r x.2 = some y.2

/-- Queue order kept by the breadth-first walk: `a` is visited before `b`, and `b` before
every child of `a`. -/
def QueueOrdered (a b : Pos) : Prop :=
  levelBefore a b = true ∧ ∀ i : Nat, levelBefore b (a ++ [i]) = true

mutual
/-- Every character-data token in the subtree of the element satisfies `P`. -/
def Element.allCharData (P : String → Nat → Bool) : Element → Bool
  | .mk _ _ _ c => allCharData P c
/-- Every character-data token of the list, at any depth, satisfies `P`. -/
def allCharData (P : String → Nat → Bool) : List Token → Bool
  | [] => true
  | .element e :: ts => e.allCharData P && allCharData P ts
  | .charData d f :: ts => P d f && allCharData P ts
  | _ :: ts => allCharData P ts
end

/-- Character data carrying the whitespace flag holds nothing but whitespace. -/
def flagSound (d : String) (f : Nat) : Bool := !flagsWhitespace f || isWhitespace d

/-- Character data holding nothing but whitespace carries the whitespace flag. -/
def flagComplete (d : String) (f : Nat) : Bool := !isWhitespace d || flagsWhitespace f

/-- The character data is not whitespace-only. -/
def notWhitespaceText (d : String) (_ : Nat) : Bool := !isWhitespace d

/-- The convention of etree's reader (default read settings): a character-data token
carries the whitespace flag exactly when its data is whitespace-only. -/
def readerFlags (ts : List Token) : Bool :=
  allCharData flagSound ts && allCharData flagComplete ts

/-- No whitespace-only text node anywhere in the tokens. -/
def whitespaceTextFree (ts : List Token) : Bool := allCharData notWhitespaceText ts

/-- The text of the child tokens that is not whitespace-only, in order. -/
def significantText : List Token → List String
  | [] => []
  | .charData d _ :: ts => if isWhitespace d then significantText ts else d :: significantText ts
  | _ :: ts => significantText ts

/-- What an element is, apart from indentation: namespace, tag, attributes and the text
among its children that is not whitespace-only. -/
def Element.shape (e : Element) : String × String × List SignedXml.Attr × List String :=
  (e.Space, e.Tag, e.Attr, significantText e.Child)

/-- The part of a string before its first line feed. -/
def firstLine (s : String) : String := ⟨s.data.takeWhile fun c => c != '\n'⟩

/-- The XML declaration as `WriteToString` writes it. -/
def xmlDecl : String := "<?xml version=\"1.0\" encoding=\"UTF-8\"?>"

/-- The document seen as its embedded element (etree `Document` embeds an `Element`
with an empty tag), so that positions reach every element of the document. -/
def Document.asElement (d : Document) : Element := .mk "" "" [] d.Child

/-- The character data is not whitespace-only, or it is the string `x`. -/
def notWhitespaceTextBut (x : String) (d : String) (_ : Nat) : Bool :=
  !isWhitespace d || d == x

/-! ## helpers.go -/

/-- The processing instruction `helpers.go` creates when `addProcessInstructions` is set. -/
def xmlDeclInst : String := "version=\"1.0\" encoding=\"UTF-8\""

/-- The tokens the document holds before the template is read. -/
def declTokens (addProcessInstructions : Bool) : List Token :=
  if addProcessInstructions then [.procInst "xml" xmlDeclInst] else []

/-- The document `InsertXMLintoSignatureTemplate` hands to `WriteToString`, or the pair
it returns early. -/
def xmlSpliceDocument (read : String → Except Error (List Token))
    (xmlSignatureTemplate xmlToBeInserted : String) (unindent addProcessInstructions : Bool) :
    Except (String × Option Error) Document :=
  if xmlSignatureTemplate = "" ∨ xmlToBeInserted = "" then .error ("", none)
  else
    let sigDoc := NewDocument
    let sigDoc := if addProcessInstructions then sigDoc.CreateProcInst "xml" xmlDeclInst else sigDoc
    match sigDoc.ReadFromString read xmlSignatureTemplate with
    | (_, some e) => .error ("", some e)
    | (sigDoc, none) =>
      match sigDoc.Root with
      | none =>
        .error ("", some "no root tag present in xmlSignatureTemplate or its root tag is not `Signature`")
      | some sig =>
        if sig.Tag ≠ "Signature" then
          .error ("", some "no root tag present in xmlSignatureTemplate or its root tag is not `Signature`")
        else
          match sig.FindElement with
          | none =>
            .error ("", some "no 'Object' tag found in xmlSignatureTemplate, can't insert xmlToBeInserted")
          | some obj =>
            match NewDocument.ReadFromString read xmlToBeInserted with
            | (_, some e) => .error ("", some e)
            | (sigTargetDoc, none) =>
              match sigTargetDoc.Root with
              | none => .error ("", some "can't set root of the 'xmlToBeInserted' document")
              | some sigTarget =>
                let sigDoc := sigDoc.updateAt (Element.AddChild (.element sigTarget)) obj
                let sigDoc := if unindent then sigDoc.Unindent else sigDoc
                .ok sigDoc

/-- Go `InsertXMLintoSignatureTemplate`: the pair `(out, e)` it returns. -/
def InsertXMLintoSignatureTemplate (read : String → Except Error (List Token))
    (xmlSignatureTemplate xmlToBeInserted : String) (unindent addProcessInstructions : Bool) :
    String × Option Error :=
  match xmlSpliceDocument read xmlSignatureTemplate xmlToBeInserted unindent
      addProcessInstructions with
  | .error r => r
  | .ok sigDoc => sigDoc.WriteToString

/-- The document `InsertTextIntoSignatureTemplate` hands to `WriteToString`, or the pair
it returns early. -/
def textSpliceDocument (read : String → Except Error (List Token))
    (xmlSignatureTemplate text : String) (unindent addProcessInstructions : Bool) :
    Except (String × Option Error) Document :=
  if xmlSignatureTemplate = "" ∨ text = "" then .error ("", none)
  else
    let sigDoc := NewDocument
    let sigDoc := if addProcessInstructions then sigDoc.CreateProcInst "xml" xmlDeclInst else sigDoc
    match sigDoc.ReadFromString read xmlSignatureTemplate with
    | (_, some e) => .error ("", some e)
    | (sigDoc, none) =>
      match sigDoc.Root with
      | none =>
        .error ("", some "no root tag present in xmlSignatureTemplate or its root tag is not `Signature`")
      | some sig =>
        if sig.Tag ≠ "Signature" then
          .error ("", some "no root tag present in xmlSignatureTemplate or its root tag is not `Signature`")
        else
          match sig.FindElement with
          | none =>
            .error ("", some "no 'Object' tag found in xmlSignatureTemplate, can't insert xmlToBeInserted")
          | some obj =>
            let sigDoc := sigDoc.updateAt (Element.SetText text) obj
            let sigDoc := if unindent then sigDoc.Unindent else sigDoc
            .ok sigDoc

/-- Go `InsertTextIntoSignatureTemplate`: the pair `(out, e)` it returns. -/
def InsertTextIntoSignatureTemplate (read : String → Except Error (List Token))
    (xmlSignatureTemplate text : String) (unindent addProcessInstructions : Bool) :
    String × Option Error :=
  match textSpliceDocument read xmlSignatureTemplate text unindent addProcessInstructions with
  | .error r => r
  | .ok sigDoc => sigDoc.WriteToString

/-- Result of running Go code that may stop with a run-time panic. -/
inductive GoResult (α : Type) where
  | returned (a : α)
  | panicked (msg : String)

/-- A `pem.Block`: type line, headers and decoded bytes. -/
structure Block where
  BlockType : String
  Headers : List (String × String)
  Bytes : List Nat

/-- The bytes of the marker that opens a PEM block, without the leading line feed. -/
def pemStart : List Nat := "-----BEGIN ".data.map Char.toNat

/-- Some line of the data starts with the PEM start marker: the test `pem.Decode` makes
before it looks at anything else. -/
def hasPemStart : Bool → List Nat → Bool
  | _, [] => false
  | lineStart, b :: bs =>
    (lineStart && pemStart.isPrefixOf (b :: bs)) || hasPemStart (b == 10) bs

/-- Go `pem.Decode`, first result: without a start marker there is no block (nil); what it
does once a marker is found is the parameter `decodeBlock`. -/
def pemDecode (decodeBlock : List Nat → Option Block) (data : List Nat) : Option Block :=
  if hasPemStart true data then decodeBlock data else none

/-- Go `PrepPKCS8PrivateKey`.  `PEMKeyBytes = none` is the nil slice; `parsePKCS8` stands
for `x509.ParsePKCS8PrivateKey`; reading `pemBlock.Bytes` through a nil block is the
run-time panic of a nil pointer dereference. -/
def PrepPKCS8PrivateKey {Key : Type} (decodeBlock : List Nat → Option Block)
    (parsePKCS8 : List Nat → Option Key × Option Error) (PEMKeyBytes : Option (List Nat)) :
    GoResult (Option Key × Option Error) :=
  match PEMKeyBytes with
  | none => .returned (none, some "no private key bytes provided")
  | some bytes =>
    match pemDecode decodeBlock bytes with
    | none => .panicked "invalid memory address or nil pointer dereference"
    | some pemBlock => .returned (parsePKCS8 pemBlock.Bytes)

/-! ## A concrete reader for plain documents

`readXML` reads the subset of XML made of elements, quoted attributes and character
data, without entity references, carriage returns, `]`, comments, processing
instructions, directives or CDATA sections; anything else is refused.  On that subset it
follows `encoding/xml`'s `RawToken` and etree's `readFrom`. -/

/-- The raw tokens of the subset. -/
inductive RawToken where
  | startElement (space name : String) (attrs : List Attr)
  | endElement (space name : String)
  | charData (data : String)

/-- Go `isNameByte`. -/
def isNameByte (c : Char) : Bool :=
  c.isAlphanum || c == '_' || c == ':' || c == '.' || c == '-'

/-- A plain name: name bytes only, starting with a letter, `_` or `:`. -/
def isName : List Char → Bool
  | [] => false
  | c :: cs => (c.isAlpha || c == '_' || c == ':') && cs.all isNameByte

/-- Go `nsname`: a name with exactly one inner colon is cut into namespace and local part. -/
def splitName (n : List Char) : String × String :=
  if n.count ':' = 1 then
    let sp := n.span (fun c => c != ':')
    if sp.1 = [] ∨ sp.2.tail = [] then ("", ⟨n⟩) else (⟨sp.1⟩, ⟨sp.2.tail⟩)
  else ("", ⟨n⟩)

/-- Characters the concrete reader refuses inside text and attribute values. -/
def plainChar (c : Char) : Bool := c != '&' && c != '\r' && c != ']' && c != '<'

/-- The attributes of a start tag up to its closing `>` or `/>`; the flag tells whether
the element closed itself. -/
def readAttrs : Nat → List Char → Except Error (List Attr × Bool × List Char)
  | 0, _ => .error "XML syntax error"
  | fuel + 1, input =>
    match input.dropWhile isWhitespaceChar with
    | [] => .error "XML syntax error: unexpected EOF"
    | '/' :: '>' :: rest => .ok ([], true, rest)
    | '/' :: _ => .error "XML syntax error: expected /> in element"
    | '>' :: rest => .ok ([], false, rest)
    | c :: cs =>
      let nm := (c :: cs).span isNameByte
      if isName nm.1 = false ∨ nm.1.count ':' > 1 then
        .error "XML syntax error: expected attribute name in element"
      else
        match nm.2.dropWhile isWhitespaceChar with
        | '=' :: afterEq =>
          match afterEq.dropWhile isWhitespaceChar with
          | q :: afterQuote =>
            if q == '"' || q == Char.ofNat 39 then
              let v := afterQuote.span (fun x => x != q)
              match v.2 with
              | [] => .error "XML syntax error: unexpected EOF"
              | _ :: rest =>
                if v.1.all plainChar then
                  match readAttrs fuel rest with
                  | .ok (attrs, closed, rest2) =>
                    .ok (⟨(splitName nm.1).1, (splitName nm.1).2, ⟨v.1⟩⟩ :: attrs, closed, rest2)
                  | .error e => .error e
                else .error "unsupported character in attribute value"
            else .error "XML syntax error: unquoted or missing attribute value in element"
          | [] => .error "XML syntax error: unexpected EOF"
        | _ => .error "XML syntax error: attribute name without = in element"

/-- The raw tokens of a plain document, in order. -/
def rawTokens : Nat → List Char → Except Error (List RawToken)
  | 0, _ => .error "XML syntax error"
  | _ + 1, [] => .ok []
  | fuel + 1, '<' :: '/' :: rest =>
    let nm := rest.span isNameByte
    if isName nm.1 = false ∨ nm.1.count ':' > 1 then
      .error "XML syntax error: expected element name after </"
    else
      match nm.2.dropWhile isWhitespaceChar with
      | '>' :: rest2 =>
        match rawTokens fuel rest2 with
        | .ok toks => .ok (.endElement (splitName nm.1).1 (splitName nm.1).2 :: toks)
        | .error e => .error e
      | _ => .error "XML syntax error: invalid characters between </ and >"
  | fuel + 1, '<' :: rest =>
    let nm := rest.span isNameByte
    if isName nm.1 = false ∨ nm.1.count ':' > 1 then
      .error "unsupported markup or XML syntax error: expected element name after <"
    else
      match readAttrs (nm.2.length + 1) nm.2 with
      | .error e => .error e
      | .ok (attrs, closed, rest2) =>
        match rawTokens fuel rest2 with
        | .ok toks =>
          .ok (.startElement (splitName nm.1).1 (splitName nm.1).2 attrs ::
            (if closed then .endElement (splitName nm.1).1 (splitName nm.1).2 :: toks else toks))
        | .error e => .error e
  | fuel + 1, c :: cs =>
    let txt := (c :: cs).span (fun x => x != '<')
    if txt.1.all plainChar then
      match rawTokens fuel txt.2 with
      | .ok toks => .ok (.charData ⟨txt.1⟩ :: toks)
      | .error e => .error e
    else .error "unsupported character in character data"

/-- An element that has been opened and not yet closed, with the children its parent
had collected before it. -/
structure OpenElement where
  Space : String
  Tag : String
  Attr : List Attr
  before : List Token

/-- etree `readFrom`: the token tree is built from the raw tokens with a stack of open
elements; `cur` holds the children of the innermost open element (or of the document). -/
def buildTree : List RawToken → List OpenElement → List Token → Except Error (List Token)
  | [], [], cur => .ok cur
  | [], _ :: _, _ => .error "etree: invalid XML format"
  | .startElement s t a :: toks, stack, cur => buildTree toks (⟨s, t, a, cur⟩ :: stack) []
  | .endElement _ _ :: _, [], _ => .error "etree: invalid XML format"
  | .endElement s t :: toks, top :: stack, cur =>
    if top.Tag ≠ t ∨ top.Space ≠ s then .error "etree: invalid XML format"
    else buildTree toks stack (top.before ++ [.element (.mk top.Space top.Tag top.Attr cur)])
  | .charData d :: toks, stack, cur =>
    buildTree toks stack (cur ++ [.charData d (if isWhitespace d then whitespaceFlag else 0)])

/-- The concrete reader: the tokens a plain document adds to a document. -/
def readXML (s : String) : Except Error (List Token) :=
  match rawTokens (s.data.length + 1) s.data with
  | .ok toks => buildTree toks [] []
  | .error e => .error e

/-! ## Concrete documents used to run the functions -/

/-- The template of the specification's scenario. -/
def exTemplate : String := "<Signature><Object Id=\"o1\"/></Signature>"

/-- The payload of the specification's scenario. -/
def exPayload : String := "<Data>hi</Data>"

/-- The root element `exTemplate` is read to. -/
def exSig : Element :=
  .mk "" "Signature" [] [.element (.mk "" "Object" [⟨"", "Id", "o1"⟩] [])]

/-- The anchor of `exTemplate`. -/
def exObject : Element := .mk "" "Object" [⟨"", "Id", "o1"⟩] []

/-- The root element `exPayload` is read to. -/
def exData : Element := .mk "" "Data" [] [.charData "hi" 0]

/-- A template with a `Signature` root and no `Object` below it. -/
def exTemplateNoObject : String := "<Signature><KeyInfo/></Signature>"

/-- The root element `exTemplateNoObject` is read to. -/
def exSigNoObject : Element :=
  .mk "" "Signature" [] [.element (.mk "" "KeyInfo" [] [])]

/-- A template whose root is not tagged `Signature`. -/
def exTemplateWrongRoot : String := "<Envelope><Object/></Envelope>"

/-- The root element `exTemplateWrongRoot` is read to. -/
def exEnvelope : Element :=
  .mk "" "Envelope" [] [.element (.mk "" "Object" [] [])]

/-- A template without any element. -/
def exTemplateNoRoot : String := "plain text"

/-- A payload that is not well-formed XML. -/
def exMalformed : String := "<Data>hi"

/-- A template with two `Object` elements: the first in document order lies deeper
than the second. -/
def exTemplateTwoObjects : String :=
  "<Signature><A><Object Id=\"deep\"/></A><Object Id=\"shallow\"/></Signature>"

/-- The root element `exTemplateTwoObjects` is read to. -/
def exSigTwoObjects : Element :=
  .mk "" "Signature" []
    [.element (.mk "" "A" [] [.element (.mk "" "Object" [⟨"", "Id", "deep"⟩] [])]),
     .element (.mk "" "Object" [⟨"", "Id", "shallow"⟩] [])]

/-- A template whose anchor already holds a child element. -/
def exTemplateChild : String := "<Signature><Object><a/></Object></Signature>"

/-- An indented template. -/
def exTemplateIndented : String := "<Signature>\n  <Object Id=\"o1\"> </Object>\n</Signature>\n"

/-- The tokens `exTemplateIndented` is read to. -/
def exIndentedTokens : List Token :=
  [.element (.mk "" "Signature" []
      [.charData "\n  " 1, .element (.mk "" "Object" [⟨"", "Id", "o1"⟩] [.charData " " 1]),
       .charData "\n" 1]),
   .charData "\n" 1]

/-- An indented payload. -/
def exPayloadIndented : String := "<Data>\n  <Item>hi</Item>\n</Data>"

/-- The tokens `exPayloadIndented` is read to. -/
def exPayloadIndentedTokens : List Token :=
  [.element (.mk "" "Data" []
      [.charData "\n  " 1, .element (.mk "" "Item" [] [.charData "hi" 0]), .charData "\n" 1])]

/-- The document serialized for `exTemplateIndented` and `exPayloadIndented` with
`unindent` set. -/
def exUnindentedDocument : Document :=
  ⟨[.element (.mk "" "Signature" []
      [.element (.mk "" "Object" [⟨"", "Id", "o1"⟩]
        [.element (.mk "" "Data" [] [.element (.mk "" "Item" [] [.charData "hi" 0])])])])]⟩

/-- The document serialized for `exTemplateIndented` and the text `hello` with `unindent`
set. -/
def exUnindentedTextDocument : Document :=
  ⟨[.element (.mk "" "Signature" []
      [.element (.mk "" "Object" [⟨"", "Id", "o1"⟩] [.charData "hello" 0])])]⟩

/-- A template whose `Object` has no `Id` attribute. -/
def exTemplateNoId : String := "<Signature><Object/></Signature>"

/-- Bytes that hold no PEM block. -/
def exNotPem : List Nat := "not a key".data.map Char.toNat

/-! ## Child elements and positions -/

theorem childElements_append (a b : List Token) :
    childElements (a ++ b) = childElements a ++ childElements b := by
  induction a with
  | nil => rfl
  | cons t ts ih => cases t <;> simp [childElements, ih]

theorem firstElement_eq_head (ts : List Token) :
    firstElement ts = (childElements ts).get? 0 := by
  induction ts with
  | nil => rfl
  | cons t ts ih => cases t <;> simp [firstElement, childElements] <;> simpa using ih

theorem childElements_unindentTokens (ts : List Token) :
    childElements (unindentTokens ts) = (childElements ts).map Element.unindent := by
  induction ts with
  | nil => simp [unindentTokens, childElements]
  | cons t ts ih =>
    cases t with
    | charData d f =>
      by_cases h : flagsWhitespace f <;> simp [unindentTokens, childElements, h, ih]
    | _ => simp [unindentTokens, childElements, ih]

theorem ChildElements_unindent (e : Element) :
    e.unindent.ChildElements = e.ChildElements.map Element.unindent := by
  cases e with
  | mk s t a c =>
    simp [Element.unindent, Element.ChildElements, Element.Child, childElements_unindentTokens]

theorem childElements_updateNthElement_same (f : Element → Element) (ts : List Token) (i : Nat) :
    (childElements (updateNthElement f i ts)).get? i = ((childElements ts).get? i).map f := by
  induction ts generalizing i with
  | nil => simp [updateNthElement, childElements]
  | cons t ts ih =>
    cases t with
    | element e =>
      cases i with
      | zero => simp [updateNthElement, childElements]
      | succ i => simpa [updateNthElement, childElements] using ih i
    | _ => simpa [updateNthElement, childElements] using ih i

theorem elementAt_append (p q : Pos) (e : Element) :
    Element.elementAt (p ++ q) e = (Element.elementAt p e).bind (Element.elementAt q) := by
  induction p generalizing e with
  | nil => simp [Element.elementAt]
  | cons i r ih =>
    simp only [List.cons_append, Element.elementAt]
    cases e.ChildElements.get? i with
    | none => rfl
    | some c => exact ih c

theorem elementAt_unindent (p : Pos) (e : Element) :
    Element.elementAt p e.unindent = (Element.elementAt p e).map Element.unindent := by
  induction p generalizing e with
  | nil => simp [Element.elementAt]
  | cons i r ih =>
    simp only [Element.elementAt, ChildElements_unindent, List.get?_eq_getElem?, List.getElem?_map]
    cases h : e.ChildElements[i]? with
    | none => simp
    | some c => simpa using ih c

theorem elementAt_updateAt (f : Element → Element) (p : Pos) (e o : Element)
    (h : Element.elementAt p e = some o) :
    Element.elementAt p (Element.updateAt f p e) = some (f o) := by
  induction p generalizing e with
  | nil =>
    simp only [Element.elementAt, Option.some.injEq] at h
    simp [Element.elementAt, Element.updateAt, h]
  | cons i r ih =>
    cases e with
    | mk s t a c =>
      simp only [Element.elementAt, Element.ChildElements, Element.Child] at h
      simp only [Element.elementAt, Element.updateAt, Element.ChildElements, Element.Child,
        childElements_updateNthElement_same]
      cases hc : (childElements c).get? i with
      | none => rw [hc] at h; exact absurd h (by simp)
      | some d =>
        rw [hc] at h
        simpa using ih d h

/-! ## Size and the breadth-first queue -/

theorem sizeTokens_eq (c : List Token) :
    sizeTokens c = ((childElements c).map Element.size).sum := by
  induction c with
  | nil => simp [sizeTokens, childElements]
  | cons t ts ih => cases t <;> simp [sizeTokens, childElements, ih]

theorem size_eq (e : Element) :
    e.size = 1 + (e.ChildElements.map Element.size).sum := by
  cases e with
  | mk s t a c => simp [Element.size, Element.ChildElements, Element.Child, sizeTokens_eq]

theorem mem_childrenFrom (p : Pos) (l : List Element) (n : Nat) (y : Pos × Element) :
    y ∈ childrenFrom p n l ↔ ∃ k, y.1 = p ++ [n + k] ∧ l.get? k = some y.2 := by
  induction l generalizing n with
  | nil => simp [childrenFrom]
  | cons c cs ih =>
    simp only [childrenFrom, List.mem_cons, ih]
    constructor
    · rintro (h | ⟨k, h1, h2⟩)
      · exact ⟨0, by simp [h]⟩
      · exact ⟨k + 1, by rw [h1]; congr 2; omega, by simpa using h2⟩
    · rintro ⟨k, h1, h2⟩
      cases k with
      | zero =>
        left
        simp only [List.get?_cons_zero, Option.some.injEq] at h2
        exact Prod.ext (by simpa using h1) h2.symm
      | succ k =>
        right
        exact ⟨k, by rw [h1]; congr 2; omega, by simpa using h2⟩

theorem mem_childrenAt (p : Pos) (e : Element) (y : Pos × Element) :
    y ∈ childrenAt p e ↔ ∃ k, y.1 = p ++ [k] ∧ e.ChildElements.get? k = some y.2 := by
  simp [childrenAt, mem_childrenFrom]

theorem queueWeight_childrenFrom (p : Pos) (l : List Element) (n : Nat) :
    queueWeight (childrenFrom p n l) = (l.map Element.size).sum := by
  induction l generalizing n with
  | nil => simp [childrenFrom, queueWeight]
  | cons c cs ih =>
    have h := ih (n + 1)
    simp only [queueWeight] at h
    simp [childrenFrom, queueWeight, h]

theorem queueWeight_append (a b : List (Pos × Element)) :
    queueWeight (a ++ b) = queueWeight a + queueWeight b := by
  simp [queueWeight]

theorem queueWeight_cons (p : Pos) (e : Element) (rest : List (Pos × Element)) :
    queueWeight ((p, e) :: rest) = queueWeight rest + queueWeight (childrenAt p e) + 1 := by
  rw [childrenAt, queueWeight_childrenFrom]
  simp only [queueWeight, List.map_cons, List.sum_cons]
  rw [size_eq]
  omega

theorem reach_refl (x : Pos × Element) : Reach x x :=
  ⟨[], by simp, rfl⟩

theorem reach_of_child (p : Pos) (e : Element) (c y : Pos × Element)
    (hc : c ∈ childrenAt p e) (h : Reach c y) : Reach (p, e) y := by
  obtain ⟨k, hk1, hk2⟩ := (mem_childrenAt p e c).1 hc
  obtain ⟨r, hr1, hr2⟩ := h
  refine ⟨k :: r, ?_, ?_⟩
  · rw [hr1, hk1]; simp
  · simp only [Element.elementAt, hk2]; exact hr2

theorem reach_cases (p : Pos) (e : Element) (y : Pos × Element) (h : Reach (p, e) y) :
    y = (p, e) ∨ ∃ c ∈ childrenAt p e, Reach c y := by
  obtain ⟨r, hr1, hr2⟩ := h
  cases r with
  | nil =>
    left
    simp only [Element.elementAt, Option.some.injEq] at hr2
    exact Prod.ext (by simpa using hr1) hr2.symm
  | cons k r =>
    right
    simp only [Element.elementAt] at hr2
    cases hk : e.ChildElements.get? k with
    | none => rw [hk] at hr2; exact absurd hr2 (by simp)
    | some c =>
      rw [hk] at hr2
      refine ⟨(p ++ [k], c), (mem_childrenAt p e _).2 ⟨k, rfl, hk⟩, r, ?_, hr2⟩
      rw [hr1]; simp

theorem descendantsQueue_sound (fuel : Nat) (q : List (Pos × Element)) (y : Pos × Element)
    (h : y ∈ descendantsQueue fuel q) : ∃ x ∈ q, Reach x y := by
  induction fuel generalizing q with
  | zero => simp [descendantsQueue] at h
  | succ fuel ih =>
    cases q with
    | nil => simp [descendantsQueue] at h
    | cons x rest =>
      obtain ⟨p, e⟩ := x
      simp only [descendantsQueue, List.mem_cons] at h
      rcases h with h | h
      · exact ⟨(p, e), by simp, h ▸ reach_refl _⟩
      · obtain ⟨x, hx, hxy⟩ := ih _ h
        rcases List.mem_append.1 hx with hx | hx
        · exact ⟨x, List.mem_cons_of_mem _ hx, hxy⟩
        · exact ⟨(p, e), by simp, reach_of_child p e x y hx hxy⟩

theorem descendantsQueue_complete (fuel : Nat) (q : List (Pos × Element))
    (hfuel : queueWeight q ≤ fuel) (x y : Pos × Element) (hx : x ∈ q) (h : Reach x y) :
    y ∈ descendantsQueue fuel q := by
  induction fuel generalizing q x with
  | zero =>
    cases q with
    | nil => simp at hx
    | cons z rest =>
      obtain ⟨p, e⟩ := z
      rw [queueWeight_cons] at hfuel
      omega
  | succ fuel ih =>
    cases q with
    | nil => simp at hx
    | cons z rest =>
      obtain ⟨p, e⟩ := z
      rw [queueWeight_cons] at hfuel
      have hw : queueWeight (rest ++ childrenAt p e) ≤ fuel := by
        rw [queueWeight_append]; omega
      simp only [descendantsQueue, List.mem_cons]
      rcases List.mem_cons.1 hx with hx | hx
      · subst hx
        rcases reach_cases p e y h with h | ⟨c, hc, hcy⟩
        · exact Or.inl h
        · exact Or.inr (ih _ hw c (List.mem_append.2 (Or.inr hc)) hcy)
      · exact Or.inr (ih _ hw x (List.mem_append.2 (Or.inl hx)) h)

/-! ## Order of the breadth-first walk -/

theorem docBefore_snoc (p : Pos) (i j : Nat) (h : i < j) :
    docBefore (p ++ [i]) (p ++ [j]) = true := by
  induction p with
  | nil => simp [docBefore, h]
  | cons k p ih => simp [docBefore, ih]

theorem docBefore_append (p q a b : Pos) (hlen : p.length = q.length)
    (h : docBefore p q = true) : docBefore (p ++ a) (q ++ b) = true := by
  induction p generalizing q with
  | nil =>
    cases q with
    | nil => simp [docBefore] at h
    | cons j q => simp at hlen
  | cons i p ih =>
    cases q with
    | nil => simp at hlen
    | cons j q =>
      simp only [List.length_cons, Nat.add_right_cancel_iff] at hlen
      simp only [docBefore, Bool.or_eq_true, decide_eq_true_eq, Bool.and_eq_true, beq_iff_eq,
        List.cons_append] at h ⊢
      rcases h with h | ⟨h1, h2⟩
      · exact Or.inl h
      · exact Or.inr ⟨h1, ih q hlen h2⟩

theorem levelBefore_iff (p q : Pos) :
    levelBefore p q = true ↔
      p.length < q.length ∨ (p.length = q.length ∧ docBefore p q = true) := by
  simp [levelBefore]

theorem levelBefore_of_length_lt (p q : Pos) (h : p.length < q.length) :
    levelBefore p q = true :=
  (levelBefore_iff p q).2 (Or.inl h)

theorem levelBefore_length_le (p q : Pos) (h : levelBefore p q = true) :
    p.length ≤ q.length := by
  rcases (levelBefore_iff p q).1 h with h | ⟨h, _⟩ <;> omega

theorem levelBefore_append_right (p q r : Pos) (h : levelBefore p q = true) :
    levelBefore p (q ++ r) = true := by
  cases r with
  | nil => simpa using h
  | cons k r =>
    apply levelBefore_of_length_lt
    have := levelBefore_length_le p q h
    simp only [List.length_append, List.length_cons]
    omega

theorem levelBefore_snoc_snoc (p q : Pos) (i j : Nat) (h : levelBefore p q = true) :
    levelBefore (p ++ [i]) (q ++ [j]) = true := by
  rcases (levelBefore_iff p q).1 h with h | ⟨h1, h2⟩
  · exact levelBefore_of_length_lt _ _ (by simp; omega)
  · exact (levelBefore_iff _ _).2 (Or.inr ⟨by simp [h1], docBefore_append p q _ _ h1 h2⟩)

theorem levelBefore_siblings (p : Pos) (i j : Nat) (h : i < j) :
    levelBefore (p ++ [i]) (p ++ [j]) = true :=
  (levelBefore_iff _ _).2 (Or.inr ⟨by simp, docBefore_snoc p i j h⟩)

theorem pairwise_childrenFrom (p : Pos) (l : List Element) (n : Nat) :
    (childrenFrom p n l).Pairwise (fun x y => QueueOrdered x.1 y.1) := by
  induction l generalizing n with
  | nil => simp [childrenFrom]
  | cons c cs ih =>
    simp only [childrenFrom, List.pairwise_cons]
    refine ⟨?_, ih (n + 1)⟩
    intro y hy
    obtain ⟨k, hk, _⟩ := (mem_childrenFrom p cs (n + 1) y).1 hy
    rw [hk]
    refine ⟨levelBefore_siblings p _ _ (by omega), fun i => ?_⟩
    exact levelBefore_of_length_lt _ _ (by simp)

theorem queueOrdered_rest_child (p a : Pos) (k : Nat) (h : QueueOrdered p a) :
    QueueOrdered a (p ++ [k]) :=
  ⟨h.2 k, fun i => levelBefore_snoc_snoc p a k i h.1⟩

theorem levelBefore_of_reach (p : Pos) (x y : Pos × Element)
    (h : levelBefore p x.1 = true) (hxy : Reach x y) : levelBefore p y.1 = true := by
  obtain ⟨r, hr, _⟩ := hxy
  rw [hr]
  exact levelBefore_append_right p x.1 r h

theorem descendantsQueue_pairwise (fuel : Nat) (q : List (Pos × Element))
    (hq : q.Pairwise (fun x y => QueueOrdered x.1 y.1)) :
    (descendantsQueue fuel q).Pairwise (fun x y => levelBefore x.1 y.1 = true) := by
  induction fuel generalizing q with
  | zero => simp [descendantsQueue]
  | succ fuel ih =>
    cases q with
    | nil => simp [descendantsQueue]
    | cons z rest =>
      obtain ⟨p, e⟩ := z
      rw [List.pairwise_cons] at hq
      simp only [descendantsQueue, List.pairwise_cons]
      constructor
      · intro y hy
        obtain ⟨x, hx, hxy⟩ := descendantsQueue_sound fuel _ y hy
        rcases List.mem_append.1 hx with hx | hx
        · exact levelBefore_of_reach p x y (hq.1 x hx).1 hxy
        · obtain ⟨k, hk, _⟩ := (mem_childrenAt p e x).1 hx
          refine levelBefore_of_reach p x y ?_ hxy
          rw [hk]
          exact levelBefore_of_length_lt _ _ (by simp)
      · apply ih
        rw [List.pairwise_append]
        refine ⟨hq.2, pairwise_childrenFrom p _ 0, ?_⟩
        intro a ha b hb
        obtain ⟨k, hk, _⟩ := (mem_childrenAt p e b).1 hb
        rw [hk]
        exact queueOrdered_rest_child p a.1 k (hq.1 a ha)

/-! ## What `FindElement` returns -/

theorem traverse_pathDescendantObject (e : Element) :
    traverse pathDescendantObject e =
      (descendantsQueue e.size [([], e)]).flatMap
        (Selector.apply (.selectChildrenByTag "" "Object")) := by
  simp [traverse, pathDescendantObject, Selector.apply]

theorem mem_selectChildrenByTag (x y : Pos × Element) :
    y ∈ Selector.apply (.selectChildrenByTag "" "Object") x ↔
      (∃ k, y.1 = x.1 ++ [k] ∧ x.2.ChildElements.get? k = some y.2) ∧ y.2.Tag = "Object" := by
  simp only [Selector.apply, List.mem_filter, mem_childrenAt, spaceMatch, beq_self_eq_true,
    Bool.true_or, Bool.true_and, beq_iff_eq]
  constructor
  · rintro ⟨h1, h2⟩; exact ⟨h1, h2.symm⟩
  · rintro ⟨h1, h2⟩; exact ⟨h1, h2.symm⟩

theorem mem_traverse (e : Element) (q : Pos) (o : Element) :
    (q, o) ∈ traverse pathDescendantObject e ↔
      q ≠ [] ∧ Element.elementAt q e = some o ∧ o.Tag = "Object" := by
  rw [traverse_pathDescendantObject, List.mem_flatMap]
  constructor
  · rintro ⟨x, hx, hy⟩
    obtain ⟨⟨k, hk1, hk2⟩, htag⟩ := (mem_selectChildrenByTag x (q, o)).1 hy
    obtain ⟨z, hz, r, hr1, hr2⟩ := descendantsQueue_sound _ _ x hx
    simp only [List.mem_singleton] at hz
    subst hz
    simp only [List.nil_append] at hr1
    simp only at hk1 hk2 htag
    refine ⟨by rw [hk1]; simp, ?_, htag⟩
    rw [hk1, hr1, elementAt_append, hr2]
    simp only [Option.some_bind, Element.elementAt, hk2]
  · rintro ⟨hne, hat, htag⟩
    rcases List.eq_nil_or_concat q with h | ⟨r, k, h⟩
    · exact absurd h hne
    · rw [List.concat_eq_append] at h
      subst h
      rw [elementAt_append] at hat
      cases hd : Element.elementAt r e with
      | none => rw [hd] at hat; simp at hat
      | some d =>
        rw [hd] at hat
        simp only [Option.some_bind, Element.elementAt] at hat
        cases hc : d.ChildElements.get? k with
        | none => rw [hc] at hat; simp at hat
        | some c =>
          rw [hc] at hat
          simp only [Option.some.injEq] at hat
          subst hat
          refine ⟨(r, d), ?_, ?_⟩
          · apply descendantsQueue_complete _ _ _ ([], e) (r, d) (by simp)
            · exact ⟨r, by simp, hd⟩
            · simp [queueWeight]
          · exact (mem_selectChildrenByTag (r, d) (r ++ [k], c)).2 ⟨⟨k, rfl, hc⟩, htag⟩

theorem pairwise_selectChildrenByTag (x : Pos × Element) :
    (Selector.apply (.selectChildrenByTag "" "Object") x).Pairwise
      (fun a b => levelBefore a.1 b.1 = true) := by
  simp only [Selector.apply]
  apply List.Pairwise.filter
  exact (pairwise_childrenFrom x.1 _ 0).imp (fun h => h.1)

theorem pairwise_traverse (e : Element) :
    (traverse pathDescendantObject e).Pairwise (fun a b => levelBefore a.1 b.1 = true) := by
  rw [traverse_pathDescendantObject, List.pairwise_flatMap]
  refine ⟨fun x _ => pairwise_selectChildrenByTag x, ?_⟩
  have hD := descendantsQueue_pairwise e.size [([], e)] (by simp)
  refine hD.imp ?_
  intro a b hab x hx y hy
  obtain ⟨⟨k, hk, _⟩, _⟩ := (mem_selectChildrenByTag a x).1 hx
  obtain ⟨⟨j, hj, _⟩, _⟩ := (mem_selectChildrenByTag b y).1 hy
  rw [hk, hj]
  exact levelBefore_snoc_snoc a.1 b.1 k j hab

theorem FindElement_eq_some (e : Element) (p : Pos) (h : e.FindElement = some p) :
    ∃ o rest, traverse pathDescendantObject e = (p, o) :: rest := by
  simp only [Element.FindElement] at h
  cases ht : traverse pathDescendantObject e with
  | nil => rw [ht] at h; simp at h
  | cons x rest =>
    rw [ht] at h
    simp only [List.head?_cons, Option.map_some', Option.some.injEq] at h
    exact ⟨x.2, rest, by rw [← h]⟩

theorem FindElement_sound (e : Element) (p : Pos) (h : e.FindElement = some p) :
    p ≠ [] ∧ ∃ o, Element.elementAt p e = some o ∧ o.Tag = "Object" := by
  obtain ⟨o, rest, ht⟩ := FindElement_eq_some e p h
  have hm : (p, o) ∈ traverse pathDescendantObject e := by rw [ht]; simp
  obtain ⟨h1, h2, h3⟩ := (mem_traverse e p o).1 hm
  exact ⟨h1, o, h2, h3⟩

theorem FindElement_first (e : Element) (p : Pos) (h : e.FindElement = some p)
    (q : Pos) (o : Element) (hq : q ≠ []) (hat : Element.elementAt q e = some o)
    (htag : o.Tag = "Object") : q = p ∨ levelBefore p q = true := by
  obtain ⟨o0, rest, ht⟩ := FindElement_eq_some e p h
  have hm := (mem_traverse e q o).2 ⟨hq, hat, htag⟩
  have hp := pairwise_traverse e
  rw [ht] at hm hp
  rw [List.pairwise_cons] at hp
  rcases List.mem_cons.1 hm with hm | hm
  · left
    exact (Prod.ext_iff.1 hm).1
  · right
    exact hp.1 _ hm

theorem FindElement_complete (e : Element) (q : Pos) (o : Element) (hq : q ≠ [])
    (hat : Element.elementAt q e = some o) (htag : o.Tag = "Object") :
    ∃ p, e.FindElement = some p := by
  have hm := (mem_traverse e q o).2 ⟨hq, hat, htag⟩
  simp only [Element.FindElement]
  cases ht : traverse pathDescendantObject e with
  | nil => rw [ht] at hm; simp at hm
  | cons x rest => exact ⟨x.1, by simp⟩

theorem FindElement_none (e : Element)
    (h : ∀ (q : Pos) (o : Element), q ≠ [] → Element.elementAt q e = some o → o.Tag ≠ "Object") :
    e.FindElement = none := by
  cases hf : e.FindElement with
  | none => rfl
  | some p =>
    obtain ⟨hp, o, hat, htag⟩ := FindElement_sound e p hf
    exact absurd htag (h p o hp hat)

/-! ## The path through the two splice functions -/

theorem firstElement_declTokens (b : Bool) (toks : List Token) :
    firstElement (declTokens b ++ toks) = firstElement toks := by
  cases b <;> simp [declTokens, firstElement]

theorem xmlSpliceDocument_unfold (read : String → Except Error (List Token)) (t x : String)
    (u b : Bool) (ht : t ≠ "") (hx : x ≠ "") :
    xmlSpliceDocument read t x u b =
      match read t with
      | .error e => .error ("", some e)
      | .ok toks =>
        match firstElement toks with
        | none =>
          .error ("", some "no root tag present in xmlSignatureTemplate or its root tag is not `Signature`")
        | some sig =>
          if sig.Tag ≠ "Signature" then
            .error ("", some "no root tag present in xmlSignatureTemplate or its root tag is not `Signature`")
          else
            match sig.FindElement with
            | none =>
              .error ("", some "no 'Object' tag found in xmlSignatureTemplate, can't insert xmlToBeInserted")
            | some obj =>
              match read x with
              | .error e => .error ("", some e)
              | .ok ptoks =>
                match firstElement ptoks with
                | none => .error ("", some "can't set root of the 'xmlToBeInserted' document")
                | some root =>
                  .ok (if u then
                      (Document.updateAt (Element.AddChild (.element root)) obj
                        ⟨declTokens b ++ toks⟩).Unindent
                    else
                      Document.updateAt (Element.AddChild (.element root)) obj
                        ⟨declTokens b ++ toks⟩) := by
  have hd : (if b = true then NewDocument.CreateProcInst "xml" xmlDeclInst else NewDocument) =
      ⟨declTokens b⟩ := by cases b <;> rfl
  simp only [xmlSpliceDocument, ht, hx, or_self, if_false, hd, Document.ReadFromString,
    Document.Root]
  cases read t with
  | error e => rfl
  | ok toks =>
    simp only [firstElement_declTokens]
    cases firstElement toks with
    | none => rfl
    | some sig =>
      simp only
      split
      · rfl
      · cases sig.FindElement with
        | none => rfl
        | some obj =>
          simp only [NewDocument, List.nil_append]
          cases read x with
          | error e => rfl
          | ok ptoks => rfl

theorem textSpliceDocument_unfold (read : String → Except Error (List Token)) (t x : String)
    (u b : Bool) (ht : t ≠ "") (hx : x ≠ "") :
    textSpliceDocument read t x u b =
      match read t with
      | .error e => .error ("", some e)
      | .ok toks =>
        match firstElement toks with
        | none =>
          .error ("", some "no root tag present in xmlSignatureTemplate or its root tag is not `Signature`")
        | some sig =>
          if sig.Tag ≠ "Signature" then
            .error ("", some "no root tag present in xmlSignatureTemplate or its root tag is not `Signature`")
          else
            match sig.FindElement with
            | none =>
              .error ("", some "no 'Object' tag found in xmlSignatureTemplate, can't insert xmlToBeInserted")
            | some obj =>
              .ok (if u then
                  (Document.updateAt (Element.SetText x) obj ⟨declTokens b ++ toks⟩).Unindent
                else Document.updateAt (Element.SetText x) obj ⟨declTokens b ++ toks⟩) := by
  have hd : (if b = true then NewDocument.CreateProcInst "xml" xmlDeclInst else NewDocument) =
      ⟨declTokens b⟩ := by cases b <;> rfl
  simp only [textSpliceDocument, ht, hx, or_self, if_false, hd, Document.ReadFromString,
    Document.Root]
  cases read t with
  | error e => rfl
  | ok toks => simp only [firstElement_declTokens]

theorem xmlSpliceDocument_ok (read : String → Except Error (List Token)) (t x : String)
    (u b : Bool) (toks ptoks : List Token) (sig root : Element) (p : Pos)
    (ht : t ≠ "") (hx : x ≠ "") (hread : read t = .ok toks)
    (hroot : firstElement toks = some sig) (htag : sig.Tag = "Signature")
    (hfind : sig.FindElement = some p) (hreadp : read x = .ok ptoks)
    (hrootp : firstElement ptoks = some root) :
    xmlSpliceDocument read t x u b =
      .ok (if u then
          (Document.updateAt (Element.AddChild (.element root)) p ⟨declTokens b ++ toks⟩).Unindent
        else Document.updateAt (Element.AddChild (.element root)) p ⟨declTokens b ++ toks⟩) := by
  rw [xmlSpliceDocument_unfold read t x u b ht hx]
  simp only [hread, hroot, htag, ne_eq, not_true_eq_false, if_false, hfind, hreadp, hrootp]

theorem textSpliceDocument_ok (read : String → Except Error (List Token)) (t x : String)
    (u b : Bool) (toks : List Token) (sig : Element) (p : Pos)
    (ht : t ≠ "") (hx : x ≠ "") (hread : read t = .ok toks)
    (hroot : firstElement toks = some sig) (htag : sig.Tag = "Signature")
    (hfind : sig.FindElement = some p) :
    textSpliceDocument read t x u b =
      .ok (if u then
          (Document.updateAt (Element.SetText x) p ⟨declTokens b ++ toks⟩).Unindent
        else Document.updateAt (Element.SetText x) p ⟨declTokens b ++ toks⟩) := by
  rw [textSpliceDocument_unfold read t x u b ht hx]
  simp only [hread, hroot, htag, ne_eq, not_true_eq_false, if_false, hfind]

theorem xmlSpliceDocument_cases (read : String → Except Error (List Token)) (t x : String)
    (u b : Bool) (ht : t ≠ "") (hx : x ≠ "") :
    (∃ e, xmlSpliceDocument read t x u b = .error ("", some e)) ∨
    (∃ toks ptoks sig root p, read t = .ok toks ∧ firstElement toks = some sig ∧
      sig.Tag = "Signature" ∧ sig.FindElement = some p ∧ read x = .ok ptoks ∧
      firstElement ptoks = some root) := by
  rw [xmlSpliceDocument_unfold read t x u b ht hx]
  cases hread : read t with
  | error e => exact Or.inl ⟨e, rfl⟩
  | ok toks =>
    cases hroot : firstElement toks with
    | none => left; simp only [hroot]; exact ⟨_, rfl⟩
    | some sig =>
      by_cases htag : sig.Tag = "Signature"
      · cases hfind : sig.FindElement with
        | none =>
          left
          simp only [hroot, htag, ne_eq, not_true_eq_false, if_false, hfind]
          exact ⟨_, rfl⟩
        | some p =>
          cases hreadp : read x with
          | error e =>
            left
            simp only [hroot, htag, ne_eq, not_true_eq_false, if_false, hfind]
            exact ⟨_, rfl⟩
          | ok ptoks =>
            cases hrootp : firstElement ptoks with
            | none =>
              left
              simp only [hroot, htag, ne_eq, not_true_eq_false, if_false, hfind, hrootp]
              exact ⟨_, rfl⟩
            | some root =>
              right
              exact ⟨toks, ptoks, sig, root, p, rfl, hroot, htag, hfind, rfl, hrootp⟩
      · left
        simp only [hroot, ne_eq, htag, not_false_eq_true, if_true]
        exact ⟨_, rfl⟩

theorem textSpliceDocument_cases (read : String → Except Error (List Token)) (t x : String)
    (u b : Bool) (ht : t ≠ "") (hx : x ≠ "") :
    (∃ e, textSpliceDocument read t x u b = .error ("", some e)) ∨
    (∃ toks sig p, read t = .ok toks ∧ firstElement toks = some sig ∧
      sig.Tag = "Signature" ∧ sig.FindElement = some p) := by
  rw [textSpliceDocument_unfold read t x u b ht hx]
  cases hread : read t with
  | error e => exact Or.inl ⟨e, rfl⟩
  | ok toks =>
    cases hroot : firstElement toks with
    | none => left; simp only [hroot]; exact ⟨_, rfl⟩
    | some sig =>
      by_cases htag : sig.Tag = "Signature"
      · cases hfind : sig.FindElement with
        | none =>
          left
          simp only [hroot, htag, ne_eq, not_true_eq_false, if_false, hfind]
          exact ⟨_, rfl⟩
        | some p =>
          right
          exact ⟨toks, sig, p, rfl, hroot, htag, hfind⟩
      · left
        simp only [hroot, ne_eq, htag, not_false_eq_true, if_true]
        exact ⟨_, rfl⟩

/-! ## Effect of the tree operations on the anchor -/

theorem firstElement_updateNthElement (f : Element → Element) (ts : List Token) :
    firstElement (updateNthElement f 0 ts) = (firstElement ts).map f := by
  rw [firstElement_eq_head, firstElement_eq_head, childElements_updateNthElement_same]

theorem firstElement_unindentTokens (ts : List Token) :
    firstElement (unindentTokens ts) = (firstElement ts).map Element.unindent := by
  rw [firstElement_eq_head, firstElement_eq_head, childElements_unindentTokens]
  simp

theorem unindentTokens_append (a b : List Token) :
    unindentTokens (a ++ b) = unindentTokens a ++ unindentTokens b := by
  induction a with
  | nil => simp [unindentTokens]
  | cons t ts ih =>
    cases t with
    | charData d f => by_cases h : flagsWhitespace f <;> simp [unindentTokens, h, ih]
    | _ => simp [unindentTokens, ih]

theorem Child_unindent (e : Element) : e.unindent.Child = unindentTokens e.Child := by
  cases e; rfl

theorem Tag_unindent (e : Element) : e.unindent.Tag = e.Tag := by
  cases e; rfl

theorem Child_withChild (e : Element) (c : List Token) : (e.withChild c).Child = c := by
  cases e; rfl

theorem Tag_withChild (e : Element) (c : List Token) : (e.withChild c).Tag = e.Tag := by
  cases e; rfl

theorem Tag_updateAt (f : Element → Element) (p : Pos) (e : Element) (hp : p ≠ []) :
    (Element.updateAt f p e).Tag = e.Tag := by
  cases p with
  | nil => exact absurd rfl hp
  | cons i r => cases e; rfl

theorem Root_updateAt (f : Element → Element) (p : Pos) (b : Bool) (toks : List Token)
    (sig : Element) (hroot : firstElement toks = some sig) :
    (Document.updateAt f p ⟨declTokens b ++ toks⟩).Root = some (Element.updateAt f p sig) := by
  simp only [Document.Root, Document.updateAt, firstElement_updateNthElement,
    firstElement_declTokens, hroot, Option.map_some']

theorem Root_Unindent (d : Document) :
    d.Unindent.Root = d.Root.map Element.unindent := by
  simp only [Document.Root, Document.Unindent, firstElement_unindentTokens]

theorem leadingText_dropWhile (c : List Token) :
    leadingText (c.dropWhile Token.isCharData) = "" := by
  induction c with
  | nil => rfl
  | cons t ts ih => cases t <;> simp [List.dropWhile, Token.isCharData, leadingText, ih]

theorem leadingText_unindent_dropWhile (c : List Token) :
    leadingText (unindentTokens (c.dropWhile Token.isCharData)) = "" := by
  induction c with
  | nil => rfl
  | cons t ts ih =>
    cases t <;> simp [List.dropWhile, Token.isCharData, leadingText, unindentTokens, ih]

theorem childElements_dropWhile (c : List Token) :
    childElements (c.dropWhile Token.isCharData) = childElements c := by
  induction c with
  | nil => rfl
  | cons t ts ih => cases t <;> simp [List.dropWhile, Token.isCharData, childElements, ih]

theorem string_append_empty (s : String) : s ++ "" = s := by
  cases s; simp [String.ext_iff]

/-! ## The two splice functions on well-formed input -/

/-- Claim C1. For a non-empty template read to a tree whose root is tagged `Signature` and
has a descendant tagged `Object`, and a non-empty payload read to a tree with a root
element, `InsertXMLintoSignatureTemplate` returns no error, and in the document it
serializes the anchor (the element `FindElement` returned, at the same position) has as
children the children it had before followed by the payload's root element as last child;
with `unindent` set both are in their unindented form. -/
theorem InsertXML_appends_payload_root (read : String → Except Error (List Token))
    (t x : String) (u b : Bool) (toks ptoks : List Token) (sig root : Element)
    (ht : t ≠ "") (hx : x ≠ "") (hread : read t = .ok toks)
    (hroot : Document.Root ⟨toks⟩ = some sig) (htag : sig.Tag = "Signature")
    (hobj : ∃ q o, q ≠ [] ∧ Element.elementAt q sig = some o ∧ o.Tag = "Object")
    (hreadp : read x = .ok ptoks) (hrootp : Document.Root ⟨ptoks⟩ = some root) :
    ∃ (p : Pos) (anchor : Element) (doc : Document) (sig' anchor' : Element),
      sig.FindElement = some p ∧ Element.elementAt p sig = some anchor ∧ anchor.Tag = "Object" ∧
      xmlSpliceDocument read t x u b = .ok doc ∧
      InsertXMLintoSignatureTemplate read t x u b = (writeTokens doc.Child, none) ∧
      doc.Root = some sig' ∧ sig'.Tag = "Signature" ∧
      Element.elementAt p sig' = some anchor' ∧ anchor'.Tag = "Object" ∧
      anchor'.Child =
        (if u then unindentTokens anchor.Child ++ [.element root.unindent]
         else anchor.Child ++ [.element root]) := by
  obtain ⟨q, o, hq, hqo, hqt⟩ := hobj
  obtain ⟨p, hfind⟩ := FindElement_complete sig q o hq hqo hqt
  obtain ⟨hp, anchor, hat, hatag⟩ := FindElement_sound sig p hfind
  have hok := xmlSpliceDocument_ok read t x u b toks ptoks sig root p ht hx hread hroot htag
    hfind hreadp hrootp
  have hR := Root_updateAt (Element.AddChild (.element root)) p b toks sig hroot
  have hA := elementAt_updateAt (Element.AddChild (.element root)) p sig anchor hat
  have hT := Tag_updateAt (Element.AddChild (.element root)) p sig hp
  cases u with
  | false =>
    refine ⟨p, anchor, _, _, _, hfind, hat, hatag, hok, ?_, hR, ?_, hA, ?_, ?_⟩
    · simp only [InsertXMLintoSignatureTemplate, hok, Document.WriteToString]
    · rw [hT, htag]
    · simp only [Element.AddChild, Tag_withChild, hatag]
    · simp [Element.AddChild, Child_withChild]
  | true =>
    refine ⟨p, anchor, _, (Element.updateAt (Element.AddChild (.element root)) p sig).unindent,
      (Element.AddChild (.element root) anchor).unindent, hfind, hat, hatag, hok,
      ?_, ?_, ?_, ?_, ?_, ?_⟩
    · simp only [InsertXMLintoSignatureTemplate, hok, Document.WriteToString]
    · simp only [if_true, Root_Unindent, hR, Option.map_some']
    · rw [Tag_unindent, hT, htag]
    · rw [elementAt_unindent, hA, Option.map_some']
    · simp only [Tag_unindent, Element.AddChild, Tag_withChild, hatag]
    · simp [Child_unindent, Element.AddChild, Child_withChild, unindentTokens_append,
        unindentTokens]

/-- Claim C2. For a non-empty template read to a tree whose root is tagged `Signature` and
has a descendant tagged `Object`, every non-empty text (whitespace-only or not) and both
values of `unindent`, `InsertTextIntoSignatureTemplate` returns no error, and in the
document it serializes the anchor starts with one character-data token holding exactly the
text, so that its text content is the text, and its child elements are those it had before
the call (each in its unindented form when `unindent` is set). -/
theorem InsertText_sets_anchor_text (read : String → Except Error (List Token))
    (t x : String) (u b : Bool) (toks : List Token) (sig : Element)
    (ht : t ≠ "") (hx : x ≠ "") (hread : read t = .ok toks)
    (hroot : Document.Root ⟨toks⟩ = some sig) (htag : sig.Tag = "Signature")
    (hobj : ∃ q o, q ≠ [] ∧ Element.elementAt q sig = some o ∧ o.Tag = "Object") :
    ∃ (p : Pos) (anchor : Element) (doc : Document) (sig' anchor' : Element),
      sig.FindElement = some p ∧ Element.elementAt p sig = some anchor ∧ anchor.Tag = "Object" ∧
      textSpliceDocument read t x u b = .ok doc ∧
      InsertTextIntoSignatureTemplate read t x u b = (writeTokens doc.Child, none) ∧
      doc.Root = some sig' ∧ Element.elementAt p sig' = some anchor' ∧ anchor'.Tag = "Object" ∧
      anchor'.Child =
        .charData x 0 ::
          (if u then unindentTokens (anchor.Child.dropWhile Token.isCharData)
           else anchor.Child.dropWhile Token.isCharData) ∧
      anchor'.Text = x ∧
      anchor'.ChildElements =
        (if u then anchor.ChildElements.map Element.unindent else anchor.ChildElements) := by
  obtain ⟨q, o, hq, hqo, hqt⟩ := hobj
  obtain ⟨p, hfind⟩ := FindElement_complete sig q o hq hqo hqt
  obtain ⟨hp, anchor, hat, hatag⟩ := FindElement_sound sig p hfind
  have hok := textSpliceDocument_ok read t x u b toks sig p ht hx hread hroot htag hfind
  have hR := Root_updateAt (Element.SetText x) p b toks sig hroot
  have hA := elementAt_updateAt (Element.SetText x) p sig anchor hat
  have hS : (Element.SetText x anchor) =
      anchor.withChild (.charData x 0 :: anchor.Child.dropWhile Token.isCharData) := by
    simp only [Element.SetText, hx, if_false]
  cases u with
  | false =>
    refine ⟨p, anchor, _, _, _, hfind, hat, hatag, hok, ?_, hR, hA, ?_, ?_, ?_, ?_⟩
    · simp only [InsertTextIntoSignatureTemplate, hok, Document.WriteToString]
    · rw [hS, Tag_withChild, hatag]
    · simp [hS, Child_withChild]
    · simp only [Element.Text, hS, Child_withChild, leadingText, leadingText_dropWhile,
        string_append_empty]
    · simp only [Element.ChildElements, hS, Child_withChild, childElements,
        childElements_dropWhile, Bool.false_eq_true, if_false]
  | true =>
    refine ⟨p, anchor, _, (Element.updateAt (Element.SetText x) p sig).unindent,
      (Element.SetText x anchor).unindent, hfind, hat, hatag, hok, ?_, ?_, ?_, ?_, ?_, ?_, ?_⟩
    · simp only [InsertTextIntoSignatureTemplate, hok, Document.WriteToString]
    · simp only [if_true, Root_Unindent, hR, Option.map_some']
    · rw [elementAt_unindent, hA, Option.map_some']
    · rw [Tag_unindent, hS, Tag_withChild, hatag]
    · simp [Child_unindent, hS, Child_withChild, unindentTokens, flagsWhitespace]
    · simp only [Element.Text, Child_unindent, hS, Child_withChild, unindentTokens,
        flagsWhitespace, leadingText, leadingText_unindent_dropWhile, string_append_empty]
    · rw [ChildElements_unindent]
      simp only [Element.ChildElements, hS, Child_withChild, childElements,
        childElements_dropWhile, if_true]

/-- Witness of C1: the scenario of the specification, with `unindent` set. -/
theorem InsertXML_appends_payload_root_witness :
    ∃ (p : Pos) (anchor : Element) (doc : Document) (sig' anchor' : Element),
      exSig.FindElement = some p ∧ Element.elementAt p exSig = some anchor ∧
      anchor.Tag = "Object" ∧
      xmlSpliceDocument readXML exTemplate exPayload true false = .ok doc ∧
      InsertXMLintoSignatureTemplate readXML exTemplate exPayload true false =
        (writeTokens doc.Child, none) ∧
      doc.Root = some sig' ∧ sig'.Tag = "Signature" ∧
      Element.elementAt p sig' = some anchor' ∧ anchor'.Tag = "Object" ∧
      anchor'.Child =
        (if true then unindentTokens anchor.Child ++ [.element exData.unindent]
         else anchor.Child ++ [.element exData]) :=
  InsertXML_appends_payload_root readXML exTemplate exPayload true false
    [.element exSig] [.element exData] exSig exData (by decide) (by decide) rfl rfl rfl
    ⟨[0], exObject, by decide, rfl, rfl⟩ rfl rfl

/-- Witness of C2: the scenario of the specification with a whitespace-only text and
`unindent` set. -/
theorem InsertText_sets_anchor_text_witness :
    ∃ (p : Pos) (anchor : Element) (doc : Document) (sig' anchor' : Element),
      exSig.FindElement = some p ∧ Element.elementAt p exSig = some anchor ∧
      anchor.Tag = "Object" ∧
      textSpliceDocument readXML exTemplate " " true false = .ok doc ∧
      InsertTextIntoSignatureTemplate readXML exTemplate " " true false =
        (writeTokens doc.Child, none) ∧
      doc.Root = some sig' ∧ Element.elementAt p sig' = some anchor' ∧ anchor'.Tag = "Object" ∧
      anchor'.Child =
        .charData " " 0 ::
          (if true then unindentTokens (anchor.Child.dropWhile Token.isCharData)
           else anchor.Child.dropWhile Token.isCharData) ∧
      anchor'.Text = " " ∧
      anchor'.ChildElements =
        (if true then anchor.ChildElements.map Element.unindent else anchor.ChildElements) :=
  InsertText_sets_anchor_text readXML exTemplate " " true false
    [.element exSig] exSig (by decide) (by decide) rfl rfl rfl
    ⟨[0], exObject, by decide, rfl, rfl⟩

/-! ## Error paths -/

/-- Claim C3. For a non-empty template read to a tree whose root is tagged `Signature` and
has no descendant tagged `Object`, every non-empty payload or text (well-formed or not) and
every setting of the two flags, both functions return the empty string together with the
missing-`Object` error. -/
theorem splice_fails_without_Object (read : String → Except Error (List Token))
    (t x : String) (u b : Bool) (toks : List Token) (sig : Element)
    (ht : t ≠ "") (hx : x ≠ "") (hread : read t = .ok toks)
    (hroot : Document.Root ⟨toks⟩ = some sig) (htag : sig.Tag = "Signature")
    (hnone : ∀ (q : Pos) (o : Element), q ≠ [] → Element.elementAt q sig = some o →
      o.Tag ≠ "Object") :
    InsertXMLintoSignatureTemplate read t x u b =
        ("", some "no 'Object' tag found in xmlSignatureTemplate, can't insert xmlToBeInserted") ∧
    InsertTextIntoSignatureTemplate read t x u b =
        ("", some "no 'Object' tag found in xmlSignatureTemplate, can't insert xmlToBeInserted") := by
  have hfind := FindElement_none sig hnone
  have hroot' : firstElement toks = some sig := hroot
  constructor
  · simp only [InsertXMLintoSignatureTemplate, xmlSpliceDocument_unfold read t x u b ht hx,
      hread, hroot', htag, ne_eq, not_true_eq_false, if_false, hfind]
  · simp only [InsertTextIntoSignatureTemplate, textSpliceDocument_unfold read t x u b ht hx,
      hread, hroot', htag, ne_eq, not_true_eq_false, if_false, hfind]

/-- Witness of C3: a `Signature` template holding only `KeyInfo`, with a malformed
payload. -/
theorem splice_fails_without_Object_witness :
    InsertXMLintoSignatureTemplate readXML exTemplateNoObject exMalformed true true =
        ("", some "no 'Object' tag found in xmlSignatureTemplate, can't insert xmlToBeInserted") ∧
    InsertTextIntoSignatureTemplate readXML exTemplateNoObject exMalformed true true =
        ("", some "no 'Object' tag found in xmlSignatureTemplate, can't insert xmlToBeInserted") :=
  splice_fails_without_Object readXML exTemplateNoObject exMalformed true true
    [.element exSigNoObject] exSigNoObject (by decide) (by decide) rfl rfl rfl
    (by
      intro q o hq hat
      cases q with
      | nil => exact absurd rfl hq
      | cons i r =>
        cases i with
        | zero =>
          cases r with
          | nil =>
            simp only [Element.elementAt, exSigNoObject, Element.ChildElements, Element.Child,
              childElements, List.get?_cons_zero, Option.some.injEq] at hat
            rw [← hat]
            decide
          | cons j r =>
            simp [Element.elementAt, exSigNoObject, Element.ChildElements, Element.Child,
              childElements] at hat
        | succ i =>
          simp [Element.elementAt, exSigNoObject, Element.ChildElements, Element.Child,
            childElements] at hat)

/-- Claim C4. For a non-empty template that is read to a tree without root element, or whose
root is not tagged `Signature`, every non-empty payload or text (well-formed or not) and
every setting of the two flags, both functions return the empty string together with the
missing-or-mistagged-root error. -/
theorem splice_fails_on_wrong_root (read : String → Except Error (List Token))
    (t x : String) (u b : Bool) (toks : List Token)
    (ht : t ≠ "") (hx : x ≠ "") (hread : read t = .ok toks)
    (hroot : Document.Root ⟨toks⟩ = none ∨
      ∃ sig, Document.Root ⟨toks⟩ = some sig ∧ sig.Tag ≠ "Signature") :
    InsertXMLintoSignatureTemplate read t x u b =
        ("", some "no root tag present in xmlSignatureTemplate or its root tag is not `Signature`") ∧
    InsertTextIntoSignatureTemplate read t x u b =
        ("", some "no root tag present in xmlSignatureTemplate or its root tag is not `Signature`") := by
  rcases hroot with hroot | ⟨sig, hroot, htag⟩
  · have hroot' : firstElement toks = none := hroot
    constructor
    · simp only [InsertXMLintoSignatureTemplate, xmlSpliceDocument_unfold read t x u b ht hx,
        hread, hroot']
    · simp only [InsertTextIntoSignatureTemplate,
        textSpliceDocument_unfold read t x u b ht hx, hread, hroot']
  · have hroot' : firstElement toks = some sig := hroot
    constructor
    · simp only [InsertXMLintoSignatureTemplate, xmlSpliceDocument_unfold read t x u b ht hx,
        hread, hroot', ne_eq, htag, not_false_eq_true, if_true]
    · simp only [InsertTextIntoSignatureTemplate,
        textSpliceDocument_unfold read t x u b ht hx, hread, hroot', ne_eq, htag,
        not_false_eq_true, if_true]

/-- Witness of C4: a template rooted at `Envelope` that does hold an `Object`, and a
template without any element, each with a malformed payload. -/
theorem splice_fails_on_wrong_root_witness :
    (InsertXMLintoSignatureTemplate readXML exTemplateWrongRoot exMalformed false true =
        ("", some "no root tag present in xmlSignatureTemplate or its root tag is not `Signature`") ∧
    InsertTextIntoSignatureTemplate readXML exTemplateWrongRoot exMalformed false true =
        ("", some "no root tag present in xmlSignatureTemplate or its root tag is not `Signature`")) ∧
    (InsertXMLintoSignatureTemplate readXML exTemplateNoRoot exMalformed true false =
        ("", some "no root tag present in xmlSignatureTemplate or its root tag is not `Signature`") ∧
    InsertTextIntoSignatureTemplate readXML exTemplateNoRoot exMalformed true false =
        ("", some "no root tag present in xmlSignatureTemplate or its root tag is not `Signature`")) :=
  ⟨splice_fails_on_wrong_root readXML exTemplateWrongRoot exMalformed false true
    [.element exEnvelope] (by decide) (by decide) rfl
    (Or.inr ⟨exEnvelope, rfl, by decide⟩),
   splice_fails_on_wrong_root readXML exTemplateNoRoot exMalformed true false
    [.charData "plain text" 0] (by decide) (by decide) rfl (Or.inl rfl)⟩

/-- Claim C5. When the template or the payload/text is the empty string, both functions
return the empty string and a nil error, whatever the reader, the other input and the two
flags are. -/
theorem splice_of_empty_input (read : String → Except Error (List Token))
    (t x : String) (u b : Bool) (h : t = "" ∨ x = "") :
    InsertXMLintoSignatureTemplate read t x u b = ("", none) ∧
    InsertTextIntoSignatureTemplate read t x u b = ("", none) := by
  constructor
  · simp only [InsertXMLintoSignatureTemplate, xmlSpliceDocument, h, if_true]
  · simp only [InsertTextIntoSignatureTemplate, textSpliceDocument, h, if_true]

/-- Witness of C5: an empty template with a malformed payload, and a template without
`Signature` with an empty payload. -/
theorem splice_of_empty_input_witness :
    (InsertXMLintoSignatureTemplate readXML "" exMalformed true true = ("", none) ∧
    InsertTextIntoSignatureTemplate readXML "" exMalformed true true = ("", none)) ∧
    (InsertXMLintoSignatureTemplate readXML exTemplateWrongRoot "" false true = ("", none) ∧
    InsertTextIntoSignatureTemplate readXML exTemplateWrongRoot "" false true = ("", none)) :=
  ⟨splice_of_empty_input readXML "" exMalformed true true (Or.inl rfl),
   splice_of_empty_input readXML exTemplateWrongRoot "" false true (Or.inr rfl)⟩

/-! ## Which `Object` is the anchor -/

/-- Counterexample to C6 as stated: in `exTemplateTwoObjects` the first `Object` in
document order is the one inside `A` (position `[0, 0]`), yet `FindElement` returns the
later, shallower one (position `[1]`), and both functions attach to that one. -/
theorem anchor_is_not_first_in_document_order :
    readXML exTemplateTwoObjects = .ok [.element exSigTwoObjects] ∧
    exSigTwoObjects.firstInDocumentOrder "Object" = some [0, 0] ∧
    (Element.elementAt [0, 0] exSigTwoObjects).map Element.Tag = some "Object" ∧
    docBefore [0, 0] [1] = true ∧
    exSigTwoObjects.FindElement = some [1] ∧
    exSigTwoObjects.FindElement ≠ exSigTwoObjects.firstInDocumentOrder "Object" ∧
    InsertTextIntoSignatureTemplate readXML exTemplateTwoObjects "x" false false =
      ("<Signature><A><Object Id=\"deep\"/></A><Object Id=\"shallow\">x</Object></Signature>",
        none) ∧
    InsertXMLintoSignatureTemplate readXML exTemplateTwoObjects exPayload false false =
      ("<Signature><A><Object Id=\"deep\"/></A><Object Id=\"shallow\"><Data>hi</Data></Object></Signature>",
        none) :=
  ⟨rfl, rfl, rfl, rfl, rfl, by decide, rfl, rfl⟩

/-- Claim C6, amended. For a template whose `Signature` root has at least one descendant
tagged `Object`, the anchor both functions attach to is the first `Object` in level
(breadth-first) order: every other `Object` below the root lies deeper, or at the same
depth and later in document order.  The text variant sets the text at that position, the
XML variant appends the payload root at that position. -/
theorem anchor_is_first_in_level_order (read : String → Except Error (List Token))
    (t x : String) (u b : Bool) (toks : List Token) (sig : Element)
    (ht : t ≠ "") (hx : x ≠ "") (hread : read t = .ok toks)
    (hroot : Document.Root ⟨toks⟩ = some sig) (htag : sig.Tag = "Signature")
    (hobj : ∃ q o, q ≠ [] ∧ Element.elementAt q sig = some o ∧ o.Tag = "Object") :
    ∃ (p : Pos) (anchor : Element),
      sig.FindElement = some p ∧ p ≠ [] ∧ Element.elementAt p sig = some anchor ∧
      anchor.Tag = "Object" ∧
      (∀ (q : Pos) (o : Element), q ≠ [] → Element.elementAt q sig = some o → o.Tag = "Object" →
        q = p ∨ levelBefore p q = true) ∧
      textSpliceDocument read t x u b =
        .ok (if u then
            (Document.updateAt (Element.SetText x) p ⟨declTokens b ++ toks⟩).Unindent
          else Document.updateAt (Element.SetText x) p ⟨declTokens b ++ toks⟩) ∧
      (∀ (ptoks : List Token) (root : Element), read x = .ok ptoks →
        Document.Root ⟨ptoks⟩ = some root →
        xmlSpliceDocument read t x u b =
          .ok (if u then
              (Document.updateAt (Element.AddChild (.element root)) p
                ⟨declTokens b ++ toks⟩).Unindent
            else
              Document.updateAt (Element.AddChild (.element root)) p
                ⟨declTokens b ++ toks⟩)) := by
  obtain ⟨q, o, hq, hqo, hqt⟩ := hobj
  obtain ⟨p, hfind⟩ := FindElement_complete sig q o hq hqo hqt
  obtain ⟨hp, anchor, hat, hatag⟩ := FindElement_sound sig p hfind
  refine ⟨p, anchor, hfind, hp, hat, hatag, FindElement_first sig p hfind, ?_, ?_⟩
  · exact textSpliceDocument_ok read t x u b toks sig p ht hx hread hroot htag hfind
  · intro ptoks root hreadp hrootp
    exact xmlSpliceDocument_ok read t x u b toks ptoks sig root p ht hx hread hroot htag
      hfind hreadp hrootp

/-- Witness of C6, amended: `exTemplateTwoObjects`. -/
theorem anchor_is_first_in_level_order_witness :
    ∃ (p : Pos) (anchor : Element),
      exSigTwoObjects.FindElement = some p ∧ p ≠ [] ∧
      Element.elementAt p exSigTwoObjects = some anchor ∧ anchor.Tag = "Object" ∧
      (∀ (q : Pos) (o : Element), q ≠ [] → Element.elementAt q exSigTwoObjects = some o →
        o.Tag = "Object" → q = p ∨ levelBefore p q = true) ∧
      textSpliceDocument readXML exTemplateTwoObjects exPayload false false =
        .ok (if false then
            (Document.updateAt (Element.SetText exPayload) p
              ⟨declTokens false ++ [.element exSigTwoObjects]⟩).Unindent
          else Document.updateAt (Element.SetText exPayload) p
              ⟨declTokens false ++ [.element exSigTwoObjects]⟩) ∧
      (∀ (ptoks : List Token) (root : Element), readXML exPayload = .ok ptoks →
        Document.Root ⟨ptoks⟩ = some root →
        xmlSpliceDocument readXML exTemplateTwoObjects exPayload false false =
          .ok (if false then
              (Document.updateAt (Element.AddChild (.element root)) p
                ⟨declTokens false ++ [.element exSigTwoObjects]⟩).Unindent
            else
              Document.updateAt (Element.AddChild (.element root)) p
                ⟨declTokens false ++ [.element exSigTwoObjects]⟩)) :=
  anchor_is_first_in_level_order readXML exTemplateTwoObjects exPayload false false
    [.element exSigTwoObjects] exSigTwoObjects (by decide) (by decide) rfl rfl rfl
    ⟨[1], .mk "" "Object" [⟨"", "Id", "shallow"⟩] [], by decide, rfl, rfl⟩

/-! ## The XML declaration -/

theorem writeTokens_declTokens (ts : List Token) :
    writeTokens (declTokens true ++ ts) = xmlDecl ++ writeTokens ts := by
  have h : "<?" ++ "xml" ++ (if xmlDeclInst = "" then "" else " " ++ xmlDeclInst) ++ "?>" =
      xmlDecl := by decide
  show writeTokens (.procInst "xml" xmlDeclInst :: ts) = xmlDecl ++ writeTokens ts
  simp only [writeTokens, h]

theorem updateNthElement_declTokens (f : Element → Element) (ts : List Token) :
    updateNthElement f 0 (declTokens true ++ ts) = declTokens true ++ updateNthElement f 0 ts := by
  simp [declTokens, updateNthElement]

theorem unindentTokens_declTokens (ts : List Token) :
    unindentTokens (declTokens true ++ ts) = declTokens true ++ unindentTokens ts := by
  simp [declTokens, unindentTokens]

theorem write_spliced_with_decl (f : Element → Element) (p : Pos) (u : Bool)
    (toks : List Token) :
    writeTokens (if u then (Document.updateAt f p ⟨declTokens true ++ toks⟩).Unindent
        else Document.updateAt f p ⟨declTokens true ++ toks⟩).Child =
      xmlDecl ++
        writeTokens (if u then (Document.updateAt f p ⟨declTokens false ++ toks⟩).Unindent
          else Document.updateAt f p ⟨declTokens false ++ toks⟩).Child := by
  have h0 : declTokens false ++ toks = toks := rfl
  cases u with
  | false =>
    simp only [Document.updateAt, updateNthElement_declTokens, writeTokens_declTokens, h0,
      Bool.false_eq_true, if_false]
  | true =>
    simp only [Document.updateAt, Document.Unindent, updateNthElement_declTokens,
      unindentTokens_declTokens, writeTokens_declTokens, h0, if_true]

/-- Counterexample to C8 as stated: on the scenario of the specification, with the
declaration requested, the output has no line feed after the declaration, so its first
line is the whole output and not the declaration. -/
theorem declaration_is_not_a_line_of_its_own :
    InsertXMLintoSignatureTemplate readXML exTemplate exPayload false true =
      ("<?xml version=\"1.0\" encoding=\"UTF-8\"?><Signature><Object Id=\"o1\"><Data>hi</Data></Object></Signature>",
        none) ∧
    firstLine (InsertXMLintoSignatureTemplate readXML exTemplate exPayload false true).1 ≠
      "<?xml version=\"1.0\" encoding=\"UTF-8\"?>" ∧
    firstLine (InsertTextIntoSignatureTemplate readXML exTemplate "hello" true true).1 ≠
      "<?xml version=\"1.0\" encoding=\"UTF-8\"?>" :=
  ⟨rfl, by decide, by decide⟩

/-- Claim C8, amended. For non-empty inputs on which a splice function returns no error
with `addProcessInstructions` set, the returned string is the declaration
`<?xml version="1.0" encoding="UTF-8"?>` immediately followed, with no line break in
between, by the string the same call returns without the declaration. -/
theorem declaration_precedes_body (read : String → Except Error (List Token))
    (t x : String) (u : Bool) (ht : t ≠ "") (hx : x ≠ "") :
    ((InsertXMLintoSignatureTemplate read t x u true).2 = none →
      (InsertXMLintoSignatureTemplate read t x u false).2 = none ∧
      (InsertXMLintoSignatureTemplate read t x u true).1 =
        xmlDecl ++ (InsertXMLintoSignatureTemplate read t x u false).1) ∧
    ((InsertTextIntoSignatureTemplate read t x u true).2 = none →
      (InsertTextIntoSignatureTemplate read t x u false).2 = none ∧
      (InsertTextIntoSignatureTemplate read t x u true).1 =
        xmlDecl ++ (InsertTextIntoSignatureTemplate read t x u false).1) := by
  constructor
  · intro h
    rcases xmlSpliceDocument_cases read t x u true ht hx with
      ⟨e, he⟩ | ⟨toks, ptoks, sig, root, p, h1, h2, h3, h4, h5, h6⟩
    · simp [InsertXMLintoSignatureTemplate, he] at h
    · simp only [InsertXMLintoSignatureTemplate,
        xmlSpliceDocument_ok read t x u true toks ptoks sig root p ht hx h1 h2 h3 h4 h5 h6,
        xmlSpliceDocument_ok read t x u false toks ptoks sig root p ht hx h1 h2 h3 h4 h5 h6,
        Document.WriteToString, write_spliced_with_decl, and_self]
  · intro h
    rcases textSpliceDocument_cases read t x u true ht hx with
      ⟨e, he⟩ | ⟨toks, sig, p, h1, h2, h3, h4⟩
    · simp [InsertTextIntoSignatureTemplate, he] at h
    · simp only [InsertTextIntoSignatureTemplate,
        textSpliceDocument_ok read t x u true toks sig p ht hx h1 h2 h3 h4,
        textSpliceDocument_ok read t x u false toks sig p ht hx h1 h2 h3 h4,
        Document.WriteToString, write_spliced_with_decl, and_self]

/-- Witness of C8, amended: the scenario of the specification. -/
theorem declaration_precedes_body_witness :
    ((InsertXMLintoSignatureTemplate readXML exTemplate exPayload true false).2 = none ∧
      (InsertXMLintoSignatureTemplate readXML exTemplate exPayload true true).1 =
        xmlDecl ++ (InsertXMLintoSignatureTemplate readXML exTemplate exPayload true false).1) ∧
    ((InsertTextIntoSignatureTemplate readXML exTemplate exPayload true false).2 = none ∧
      (InsertTextIntoSignatureTemplate readXML exTemplate exPayload true true).1 =
        xmlDecl ++ (InsertTextIntoSignatureTemplate readXML exTemplate exPayload true false).1) :=
  ⟨(declaration_precedes_body readXML exTemplate exPayload true (by decide) (by decide)).1 rfl,
   (declaration_precedes_body readXML exTemplate exPayload true (by decide) (by decide)).2 rfl⟩

/-! ## Character data under the tree operations -/

mutual
theorem elementCharData_mono (P Q : String → Nat → Bool)
    (h : ∀ d f, P d f = true → Q d f = true) :
    ∀ e : Element, e.allCharData P = true → e.allCharData Q = true
  | .mk _ _ _ c, hc => by
    simp only [Element.allCharData] at hc ⊢
    exact allCharData_mono P Q h c hc
theorem allCharData_mono (P Q : String → Nat → Bool)
    (h : ∀ d f, P d f = true → Q d f = true) :
    ∀ ts : List Token, allCharData P ts = true → allCharData Q ts = true
  | [], _ => by simp [allCharData]
  | .element e :: ts, hc => by
    simp only [allCharData, Bool.and_eq_true] at hc ⊢
    exact ⟨elementCharData_mono P Q h e hc.1, allCharData_mono P Q h ts hc.2⟩
  | .charData d f :: ts, hc => by
    simp only [allCharData, Bool.and_eq_true] at hc ⊢
    exact ⟨h d f hc.1, allCharData_mono P Q h ts hc.2⟩
  | .comment _ :: ts, hc => by
    simp only [allCharData] at hc ⊢
    exact allCharData_mono P Q h ts hc
  | .directive _ :: ts, hc => by
    simp only [allCharData] at hc ⊢
    exact allCharData_mono P Q h ts hc
  | .procInst _ _ :: ts, hc => by
    simp only [allCharData] at hc ⊢
    exact allCharData_mono P Q h ts hc
end

mutual
theorem elementCharData_unindent (P Q : String → Nat → Bool)
    (h : ∀ d f, P d f = true → flagsWhitespace f = false → Q d f = true) :
    ∀ e : Element, e.allCharData P = true → e.unindent.allCharData Q = true
  | .mk _ _ _ c, hc => by
    simp only [Element.allCharData, Element.unindent] at hc ⊢
    exact allCharData_unindentTokens P Q h c hc
theorem allCharData_unindentTokens (P Q : String → Nat → Bool)
    (h : ∀ d f, P d f = true → flagsWhitespace f = false → Q d f = true) :
    ∀ ts : List Token, allCharData P ts = true → allCharData Q (unindentTokens ts) = true
  | [], _ => by simp [allCharData, unindentTokens]
  | .element e :: ts, hc => by
    simp only [allCharData, unindentTokens, Bool.and_eq_true] at hc ⊢
    exact ⟨elementCharData_unindent P Q h e hc.1, allCharData_unindentTokens P Q h ts hc.2⟩
  | .charData d f :: ts, hc => by
    simp only [allCharData, Bool.and_eq_true] at hc
    by_cases hf : flagsWhitespace f = true
    · simp only [unindentTokens, hf, if_true]
      exact allCharData_unindentTokens P Q h ts hc.2
    · simp only [unindentTokens, hf, Bool.false_eq_true, if_false, allCharData,
        Bool.and_eq_true]
      exact ⟨h d f hc.1 (by simpa using hf), allCharData_unindentTokens P Q h ts hc.2⟩
  | .comment _ :: ts, hc => by
    simp only [allCharData, unindentTokens] at hc ⊢
    exact allCharData_unindentTokens P Q h ts hc
  | .directive _ :: ts, hc => by
    simp only [allCharData, unindentTokens] at hc ⊢
    exact allCharData_unindentTokens P Q h ts hc
  | .procInst _ _ :: ts, hc => by
    simp only [allCharData, unindentTokens] at hc ⊢
    exact allCharData_unindentTokens P Q h ts hc
end

theorem allCharData_append (P : String → Nat → Bool) (a b : List Token) :
    allCharData P (a ++ b) = (allCharData P a && allCharData P b) := by
  induction a with
  | nil => simp [allCharData]
  | cons t ts ih => cases t <;> simp [allCharData, ih, Bool.and_assoc]

theorem allCharData_declTokens (P : String → Nat → Bool) (b : Bool) (ts : List Token) :
    allCharData P (declTokens b ++ ts) = allCharData P ts := by
  cases b <;> simp [declTokens, allCharData]

theorem allCharData_childElement (P : String → Nat → Bool) (ts : List Token) (i : Nat) (e : Element)
    (h : allCharData P ts = true) (he : (childElements ts).get? i = some e) :
    e.allCharData P = true := by
  induction ts generalizing i with
  | nil => simp [childElements] at he
  | cons t ts ih =>
    cases t with
    | element e0 =>
      simp only [allCharData, Bool.and_eq_true] at h
      cases i with
      | zero =>
        simp only [childElements, List.get?_cons_zero, Option.some.injEq] at he
        rw [← he]; exact h.1
      | succ i =>
        simp only [childElements, List.get?_cons_succ] at he
        exact ih i h.2 he
    | charData d f =>
      simp only [allCharData, Bool.and_eq_true] at h
      simp only [childElements] at he
      exact ih i h.2 he
    | comment d =>
      simp only [allCharData] at h
      simp only [childElements] at he
      exact ih i h he
    | directive d =>
      simp only [allCharData] at h
      simp only [childElements] at he
      exact ih i h he
    | procInst a b =>
      simp only [allCharData] at h
      simp only [childElements] at he
      exact ih i h he

theorem allCharData_Child (P : String → Nat → Bool) (e : Element) :
    allCharData P e.Child = e.allCharData P := by
  cases e; simp [Element.allCharData, Element.Child]

theorem allCharData_elementAt (P : String → Nat → Bool) (p : Pos) (e d : Element)
    (h : e.allCharData P = true) (hd : Element.elementAt p e = some d) :
    d.allCharData P = true := by
  induction p generalizing e with
  | nil =>
    simp only [Element.elementAt, Option.some.injEq] at hd
    rw [← hd]; exact h
  | cons i r ih =>
    simp only [Element.elementAt] at hd
    cases hc : e.ChildElements.get? i with
    | none => rw [hc] at hd; exact absurd hd (by simp)
    | some c =>
      rw [hc] at hd
      refine ih c ?_ hd
      exact allCharData_childElement P e.Child i c (by rw [allCharData_Child]; exact h) hc

theorem allCharData_updateNthElement (P : String → Nat → Bool) (f : Element → Element)
    (hf : ∀ e : Element, e.allCharData P = true → (f e).allCharData P = true)
    (ts : List Token) (i : Nat) (h : allCharData P ts = true) :
    allCharData P (updateNthElement f i ts) = true := by
  induction ts generalizing i with
  | nil => simp [updateNthElement, allCharData]
  | cons t ts ih =>
    cases t with
    | element e0 =>
      simp only [allCharData, Bool.and_eq_true] at h
      cases i with
      | zero =>
        simp only [updateNthElement, allCharData, Bool.and_eq_true]
        exact ⟨hf e0 h.1, h.2⟩
      | succ i =>
        simp only [updateNthElement, allCharData, Bool.and_eq_true]
        exact ⟨h.1, ih i h.2⟩
    | charData d fl =>
      simp only [allCharData, Bool.and_eq_true] at h
      simp only [updateNthElement, allCharData, Bool.and_eq_true]
      exact ⟨h.1, ih i h.2⟩
    | comment d =>
      simp only [allCharData] at h
      simp only [updateNthElement, allCharData]
      exact ih i h
    | directive d =>
      simp only [allCharData] at h
      simp only [updateNthElement, allCharData]
      exact ih i h
    | procInst a b =>
      simp only [allCharData] at h
      simp only [updateNthElement, allCharData]
      exact ih i h

theorem allCharData_updateAt (P : String → Nat → Bool) (f : Element → Element)
    (hf : ∀ e : Element, e.allCharData P = true → (f e).allCharData P = true)
    (p : Pos) (e : Element) (h : e.allCharData P = true) :
    (Element.updateAt f p e).allCharData P = true := by
  induction p generalizing e with
  | nil => exact hf e h
  | cons i r ih =>
    cases e with
    | mk s t a c =>
      simp only [Element.allCharData] at h
      simp only [Element.updateAt, Element.allCharData]
      exact allCharData_updateNthElement P _ ih c i h

theorem allCharData_AddChild (P : String → Nat → Bool) (root e : Element)
    (hr : root.allCharData P = true) (h : e.allCharData P = true) :
    (Element.AddChild (.element root) e).allCharData P = true := by
  cases e with
  | mk s t a c =>
    simp only [Element.allCharData] at h
    simp [Element.AddChild, Element.withChild, Element.Child, Element.allCharData,
      allCharData_append, allCharData, h, hr]

theorem allCharData_dropWhile (P : String → Nat → Bool) (c : List Token)
    (h : allCharData P c = true) : allCharData P (c.dropWhile Token.isCharData) = true := by
  induction c with
  | nil => simpa using h
  | cons t ts ih =>
    cases t with
    | charData d f =>
      simp only [allCharData, Bool.and_eq_true] at h
      simpa [List.dropWhile, Token.isCharData] using ih h.2
    | _ => simpa [List.dropWhile, Token.isCharData] using h

theorem allCharData_SetText (P : String → Nat → Bool) (x : String) (e : Element)
    (hx : P x 0 = true) (h : e.allCharData P = true) :
    (Element.SetText x e).allCharData P = true := by
  cases e with
  | mk s t a c =>
    simp only [Element.allCharData] at h
    have hd := allCharData_dropWhile P c h
    by_cases hempty : x = ""
    · simp [Element.SetText, hempty, Element.withChild, Element.Child, Element.allCharData, hd]
    · simp [Element.SetText, hempty, Element.withChild, Element.Child, Element.allCharData,
        allCharData, hd, hx]

theorem significantText_unindentTokens (c : List Token)
    (h : allCharData flagSound c = true) :
    significantText (unindentTokens c) = significantText c := by
  induction c with
  | nil => rfl
  | cons t ts ih =>
    cases t with
    | element e =>
      simp only [allCharData, Bool.and_eq_true] at h
      simp only [unindentTokens, significantText, ih h.2]
    | charData d f =>
      simp only [allCharData, Bool.and_eq_true, flagSound, Bool.or_eq_true,
        Bool.not_eq_true'] at h
      by_cases hf : flagsWhitespace f = true
      · have hw : isWhitespace d = true := by
          rcases h.1 with h1 | h1
          · rw [hf] at h1; exact absurd h1 (by simp)
          · exact h1
        simp only [unindentTokens, hf, if_true, significantText, hw, ih h.2]
      · simp only [unindentTokens, hf, Bool.false_eq_true, if_false, significantText, ih h.2]
    | comment d =>
      simp only [allCharData] at h
      simp only [unindentTokens, significantText, ih h]
    | directive d =>
      simp only [allCharData] at h
      simp only [unindentTokens, significantText, ih h]
    | procInst a b =>
      simp only [allCharData] at h
      simp only [unindentTokens, significantText, ih h]

theorem shape_unindent (e : Element) (h : e.allCharData flagSound = true) :
    e.unindent.shape = e.shape := by
  cases e with
  | mk s t a c =>
    simp only [Element.allCharData] at h
    simp only [Element.shape, Element.unindent, Element.Space, Element.Tag, Element.Attr,
      Element.Child, significantText_unindentTokens c h]

theorem shape_elementAt_unindent (e : Element) (h : e.allCharData flagSound = true) (q : Pos) :
    (Element.elementAt q e.unindent).map Element.shape = (Element.elementAt q e).map Element.shape := by
  rw [elementAt_unindent]
  cases hd : Element.elementAt q e with
  | none => rfl
  | some d =>
    simp only [Option.map_some', Option.some.injEq]
    exact shape_unindent d (allCharData_elementAt flagSound q e d h hd)

/-! ## Unindenting -/

theorem xmlSpliceDocument_ok_nonempty (read : String → Except Error (List Token))
    (t x : String) (u b : Bool) (d : Document)
    (h : xmlSpliceDocument read t x u b = .ok d) : t ≠ "" ∧ x ≠ "" := by
  by_cases he : t = "" ∨ x = ""
  · simp [xmlSpliceDocument, he] at h
  · exact ⟨fun h1 => he (Or.inl h1), fun h2 => he (Or.inr h2)⟩

theorem textSpliceDocument_ok_nonempty (read : String → Except Error (List Token))
    (t x : String) (u b : Bool) (d : Document)
    (h : textSpliceDocument read t x u b = .ok d) : t ≠ "" ∧ x ≠ "" := by
  by_cases he : t = "" ∨ x = ""
  · simp [textSpliceDocument, he] at h
  · exact ⟨fun h1 => he (Or.inl h1), fun h2 => he (Or.inr h2)⟩

theorem allCharData_spliced (P : String → Nat → Bool) (f : Element → Element)
    (hf : ∀ e : Element, e.allCharData P = true → (f e).allCharData P = true)
    (p : Pos) (b : Bool) (toks : List Token) (h : allCharData P toks = true) :
    allCharData P (Document.updateAt f p ⟨declTokens b ++ toks⟩).Child = true := by
  simp only [Document.updateAt]
  apply allCharData_updateNthElement P _ (fun e he => allCharData_updateAt P f hf p e he)
  rw [allCharData_declTokens]
  exact h

theorem flagComplete_unflagged (d : String) (f : Nat) (h : flagComplete d f = true)
    (hf : flagsWhitespace f = false) : notWhitespaceText d f = true := by
  simp only [flagComplete, hf, Bool.or_false] at h
  exact h

/-- Counterexample to C9 as stated: with the whitespace-only text `" "` and `unindent`
set, the text variant serializes a tree in which the whitespace-only text node stands
between the opening tag of `Object` and its child element `a`. -/
theorem unindent_keeps_whitespace_text :
    InsertTextIntoSignatureTemplate readXML exTemplateChild " " true false =
      ("<Signature><Object> <a/></Object></Signature>", none) ∧
    (match textSpliceDocument readXML exTemplateChild " " true false with
      | .ok d => whitespaceTextFree d.Child
      | .error _ => true) = false :=
  ⟨rfl, rfl⟩

/-- Claim C9, amended. Let the reader flag character data as whitespace exactly when it is
whitespace-only (the convention of etree's reader).  When a splice succeeds with
`unindent` set, the same splice without `unindent` succeeds too, the serialized document
is its unindented form, and every element has the same namespace, tag, attributes and
non-whitespace text at the same position in both.  In the XML variant the serialized
document holds no whitespace-only text node at all.  In the text variant the only
whitespace-only text node it can hold is the text that was set; there is none when the
text is not whitespace-only. -/
theorem unindent_strips_read_whitespace (read : String → Except Error (List Token))
    (t x : String) (b : Bool) :
    (∀ d1 : Document, xmlSpliceDocument read t x true b = .ok d1 →
      (∀ toks, read t = .ok toks → readerFlags toks = true) →
      (∀ ptoks, read x = .ok ptoks → readerFlags ptoks = true) →
      ∃ d0 : Document, xmlSpliceDocument read t x false b = .ok d0 ∧ d1 = d0.Unindent ∧
        whitespaceTextFree d1.Child = true ∧
        ∀ q : Pos, (Element.elementAt q d1.asElement).map Element.shape =
          (Element.elementAt q d0.asElement).map Element.shape) ∧
    (∀ d1 : Document, textSpliceDocument read t x true b = .ok d1 →
      (∀ toks, read t = .ok toks → readerFlags toks = true) →
      ∃ d0 : Document, textSpliceDocument read t x false b = .ok d0 ∧ d1 = d0.Unindent ∧
        allCharData (notWhitespaceTextBut x) d1.Child = true ∧
        (isWhitespace x = false → whitespaceTextFree d1.Child = true) ∧
        ∀ q : Pos, (Element.elementAt q d1.asElement).map Element.shape =
          (Element.elementAt q d0.asElement).map Element.shape) := by
  constructor
  · intro d1 h1 hflags hflagsp
    obtain ⟨ht, hx⟩ := xmlSpliceDocument_ok_nonempty read t x true b d1 h1
    rcases xmlSpliceDocument_cases read t x true b ht hx with
      ⟨e, he⟩ | ⟨toks, ptoks, sig, root, p, r1, r2, r3, r4, r5, r6⟩
    · rw [he] at h1; exact absurd h1 (by simp)
    · have hok1 := xmlSpliceDocument_ok read t x true b toks ptoks sig root p ht hx
        r1 r2 r3 r4 r5 r6
      have hok0 := xmlSpliceDocument_ok read t x false b toks ptoks sig root p ht hx
        r1 r2 r3 r4 r5 r6
      simp only [if_true] at hok1
      simp only [Bool.false_eq_true, if_false] at hok0
      rw [hok1] at h1
      have hd : d1 = (Document.updateAt (Element.AddChild (.element root)) p
          ⟨declTokens b ++ toks⟩).Unindent := (Except.ok.inj h1).symm
      have hft := hflags toks r1
      have hfp := hflagsp ptoks r5
      simp only [readerFlags, Bool.and_eq_true] at hft hfp
      have hrootS : root.allCharData flagSound = true :=
        allCharData_childElement flagSound ptoks 0 root hfp.1 (by rw [← firstElement_eq_head]; exact r6)
      have hrootC : root.allCharData flagComplete = true :=
        allCharData_childElement flagComplete ptoks 0 root hfp.2
          (by rw [← firstElement_eq_head]; exact r6)
      have hS := allCharData_spliced flagSound (Element.AddChild (.element root))
        (fun e he => allCharData_AddChild flagSound root e hrootS he) p b toks hft.1
      have hC := allCharData_spliced flagComplete (Element.AddChild (.element root))
        (fun e he => allCharData_AddChild flagComplete root e hrootC he) p b toks hft.2
      refine ⟨_, hok0, hd, ?_, ?_⟩
      · rw [hd]
        exact allCharData_unindentTokens flagComplete notWhitespaceText
          flagComplete_unflagged _ hC
      · intro q
        rw [hd]
        exact shape_elementAt_unindent (Document.asElement _) hS q
  · intro d1 h1 hflags
    obtain ⟨ht, hx⟩ := textSpliceDocument_ok_nonempty read t x true b d1 h1
    rcases textSpliceDocument_cases read t x true b ht hx with
      ⟨e, he⟩ | ⟨toks, sig, p, r1, r2, r3, r4⟩
    · rw [he] at h1; exact absurd h1 (by simp)
    · have hok1 := textSpliceDocument_ok read t x true b toks sig p ht hx r1 r2 r3 r4
      have hok0 := textSpliceDocument_ok read t x false b toks sig p ht hx r1 r2 r3 r4
      simp only [if_true] at hok1
      simp only [Bool.false_eq_true, if_false] at hok0
      rw [hok1] at h1
      have hd : d1 = (Document.updateAt (Element.SetText x) p
          ⟨declTokens b ++ toks⟩).Unindent := (Except.ok.inj h1).symm
      have hft := hflags toks r1
      simp only [readerFlags, Bool.and_eq_true] at hft
      have hS := allCharData_spliced flagSound (Element.SetText x)
        (fun e he => allCharData_SetText flagSound x e (by simp [flagSound, flagsWhitespace]) he)
        p b toks hft.1
      have hC := allCharData_spliced (fun d f => flagComplete d f || d == x)
        (Element.SetText x)
        (fun e he => allCharData_SetText _ x e (by simp) he) p b toks
        (allCharData_mono flagComplete _ (fun d f h => by simp [h]) toks hft.2)
      have hB : allCharData (notWhitespaceTextBut x) d1.Child = true := by
        rw [hd]
        refine allCharData_unindentTokens _ (notWhitespaceTextBut x) ?_ _ hC
        intro d f hdf hf
        simp only [flagComplete, hf, Bool.or_false, Bool.or_eq_true, Bool.not_eq_true',
          beq_iff_eq] at hdf
        simp only [notWhitespaceTextBut, Bool.or_eq_true, Bool.not_eq_true', beq_iff_eq]
        exact hdf
      refine ⟨_, hok0, hd, hB, ?_, ?_⟩
      · intro hw
        refine allCharData_mono (notWhitespaceTextBut x) notWhitespaceText ?_ _ hB
        intro d f hdf
        simp only [notWhitespaceTextBut, Bool.or_eq_true, Bool.not_eq_true', beq_iff_eq] at hdf
        simp only [notWhitespaceText, Bool.not_eq_true']
        rcases hdf with hdf | hdf
        · exact hdf
        · rw [hdf]; exact hw
      · intro q
        rw [hd]
        exact shape_elementAt_unindent (Document.asElement _) hS q

/-- Witness of C9, amended: an indented template, with an indented payload for the XML
variant and the text `hello` for the text variant. -/
theorem unindent_strips_read_whitespace_witness :
    (∃ d0 : Document,
      xmlSpliceDocument readXML exTemplateIndented exPayloadIndented false false = .ok d0 ∧
      exUnindentedDocument = d0.Unindent ∧
      whitespaceTextFree exUnindentedDocument.Child = true ∧
      ∀ q : Pos, (Element.elementAt q exUnindentedDocument.asElement).map Element.shape =
        (Element.elementAt q d0.asElement).map Element.shape) ∧
    (∃ d0 : Document,
      textSpliceDocument readXML exTemplateIndented "hello" false false = .ok d0 ∧
      exUnindentedTextDocument = d0.Unindent ∧
      allCharData (notWhitespaceTextBut "hello") exUnindentedTextDocument.Child = true ∧
      (isWhitespace "hello" = false →
        whitespaceTextFree exUnindentedTextDocument.Child = true) ∧
      ∀ q : Pos, (Element.elementAt q exUnindentedTextDocument.asElement).map Element.shape =
        (Element.elementAt q d0.asElement).map Element.shape) :=
  ⟨(unindent_strips_read_whitespace readXML exTemplateIndented exPayloadIndented false).1
    exUnindentedDocument rfl
    (fun toks h => by
      have h2 : Except.ok toks = (Except.ok exIndentedTokens : Except Error (List Token)) :=
        h.symm.trans rfl
      cases h2
      decide)
    (fun ptoks h => by
      have h2 : Except.ok ptoks =
          (Except.ok exPayloadIndentedTokens : Except Error (List Token)) := h.symm.trans rfl
      cases h2
      decide),
   (unindent_strips_read_whitespace readXML exTemplateIndented "hello" false).2
    exUnindentedTextDocument rfl
    (fun toks h => by
      have h2 : Except.ok toks = (Except.ok exIndentedTokens : Except Error (List Token)) :=
        h.symm.trans rfl
      cases h2
      decide)⟩

/-! ## Behaviour that contradicts the documentation -/

/-- Claim C10, the code at a failing input. With a template whose `Object` carries no `Id`
attribute, `InsertXMLintoSignatureTemplate` returns the spliced document and a nil error,
where its doc comment announces an error. -/
theorem InsertXML_accepts_Object_without_Id :
    readXML exTemplateNoId =
      .ok [.element (.mk "" "Signature" [] [.element (.mk "" "Object" [] [])])] ∧
    InsertXMLintoSignatureTemplate readXML exTemplateNoId exPayload false false =
      ("<Signature><Object><Data>hi</Data></Object></Signature>", none) :=
  ⟨rfl, rfl⟩

/-- Claim C7, the code at a failing input. For non-nil bytes without a PEM block (the empty
byte sequence, or bytes that are not PEM), `PrepPKCS8PrivateKey` reads `Bytes` through
the nil block and panics instead of returning an error. -/
theorem PrepPKCS8PrivateKey_panics_without_block (Key : Type)
    (decodeBlock : List Nat → Option Block)
    (parsePKCS8 : List Nat → Option Key × Option Error) :
    PrepPKCS8PrivateKey decodeBlock parsePKCS8 (some []) =
      .panicked "invalid memory address or nil pointer dereference" ∧
    PrepPKCS8PrivateKey decodeBlock parsePKCS8 (some exNotPem) =
      .panicked "invalid memory address or nil pointer dereference" :=
  ⟨rfl, rfl⟩

end SignedXml
